import Mathlib

/-!
Verification of the Closset AI service's stitch-plan synthesis engine
(apps/ai/main.py) against its natural-language specification.

The Python source is shallowly embedded over exact rational arithmetic:
Python floats become rationals, Python dicts become structures whose
optional keys become Option fields, and Python strings stay strings.
Square roots (math.hypot, math.sqrt, ** 0.5) are irrational in general,
so they are embedded by ratSqrt, an executable function that is exact on
rational perfect squares; every concrete input used in a theorem below
keeps all square roots exact, and every universal theorem below depends
only on the sign properties of ratSqrt proved here, not on its values.
math.sin is kept as an explicit function parameter where the source uses
it, since no claim depends on its values.
-/

set_option maxHeartbeats 2000000

namespace Closset

/-- Bounded upward search for the integer square root: the largest k with
k * k ≤ n, reached before the fuel runs out because the root is at most the
fuel plus the starting point. -/
def natSqrtAux (n : Nat) : Nat → Nat → Nat
  | 0, k => k
  | fuel + 1, k => if (k + 1) * (k + 1) ≤ n then natSqrtAux n fuel (k + 1) else k

/-- Integer square root (largest k with k * k ≤ n). -/
def natSqrt (n : Nat) : Nat := natSqrtAux n n 0

/-- Models the real square root used by math.hypot, math.sqrt and ** 0.5.
Exact whenever the argument is the square of a rational (in lowest terms the
numerator and denominator are then perfect squares); otherwise it returns
some nonnegative rational. Zero on nonpositive input, positive on positive
input, which is all the structural claims below use. -/
def ratSqrt (q : ℚ) : ℚ :=
  if q ≤ 0 then 0 else (natSqrt q.num.toNat : ℚ) / (natSqrt q.den : ℚ)

/-- Models math.hypot dx dy. -/
def hypot (dx dy : ℚ) : ℚ := ratSqrt (dx * dx + dy * dy)

/-- Models the Python float modulo a % b for the positive divisors the source
uses it with: the remainder of floor division (same sign as the divisor). -/
def qmod (a b : ℚ) : ℚ := a - b * ⌊a / b⌋

/-- A plain {x, y} coordinate dict in pixel space. -/
structure PtXY where
  x : ℚ
  y : ℚ
deriving DecidableEq, Repr

/-- A stitch-plan point dict. The type key holds the command kind string
(stitch, jump, trim, color_change, stop, end); none models a Python None
value or an absent key read back as None. The color key is only attached
to color_change markers. -/
structure PlanPoint where
  x : ℚ
  y : ℚ
  type : Option String
  color : Option String := none
deriving DecidableEq, Repr

/-- Request payload for /embroidery/generate_from_points
(class GenerateFromPointsReq). Pydantic declares the fields without any
value constraints, so every field admits arbitrary values. -/
structure GenerateFromPointsReq where
  points : List PtXY
  canvas_width : Int
  canvas_height : Int
  strategy : String := "outline"
  density : ℚ := 1
  width_mm : ℚ := 2
  passes : Int := 1
  stitch_len_mm : ℚ := 5/2
  mm_per_px : ℚ := 13/50
deriving Repr

/-- The info dict of a generate_from_points response. The early-return
branch builds a dict holding only stitch_count; the main branch adds the
other keys, so those are Option fields. -/
structure GenInfo where
  stitch_count : Nat
  strategy : Option String := none
  mm_per_px : Option ℚ := none
  stitch_len_mm : Option ℚ := none
  width_mm : Option ℚ := none
  passes : Option Int := none
deriving DecidableEq, Repr

/-- A generate_from_points JSON response. -/
structure GenResp where
  ok : Bool
  points : List PlanPoint
  info : GenInfo
deriving DecidableEq, Repr

/-- The while loop of resample_polyline:
while acc + spacing <= seg_len: acc += spacing; out.append(sample).
Embedded with explicit fuel; the call site passes fuel strictly larger
than the number of iterations the loop performs (the source loop
terminates exactly when the spacing is positive, which the program
guarantees by clamping spacing at 1.0). Returns the appended points and
the final accumulator value. -/
def sampleLoop (x0 y0 ux uy spacing seg_len : ℚ) : Nat → ℚ → List PtXY × ℚ
  | 0, acc => ([], acc)
  | fuel + 1, acc =>
    if acc + spacing ≤ seg_len then
      let acc1 := acc + spacing
      let r := sampleLoop x0 y0 ux uy spacing seg_len fuel acc1
      (⟨x0 + ux * acc1, y0 + uy * acc1⟩ :: r.1, r.2)
    else ([], acc)

/-- Arc positions emitted by sampleLoop (proof helper mirroring the same
recursion; sampleLoop_eq_accs relates the two). -/
def sampleAccs (spacing seg_len : ℚ) : Nat → ℚ → List ℚ
  | 0, _ => []
  | fuel + 1, acc =>
    if acc + spacing ≤ seg_len then
      (acc + spacing) :: sampleAccs spacing seg_len fuel (acc + spacing)
    else []

/-- One iteration of the for i in range(1, len(points)) loop of
resample_polyline, processing the segment from p to q with state
(out, acc). -/
def resampleStep (spacing : ℚ) (st : List PtXY × ℚ) (seg : PtXY × PtXY) :
    List PtXY × ℚ :=
  let x0 := seg.1.x
  let y0 := seg.1.y
  let dx := seg.2.x - x0
  let dy := seg.2.y - y0
  let seg_len := hypot dx dy
  if seg_len ≤ 1 / 1000000 then st
  else
    let ux := dx / seg_len
    let uy := dy / seg_len
    let fuel := (⌊(seg_len - st.2) / spacing⌋).toNat + 1
    let r := sampleLoop x0 y0 ux uy spacing seg_len fuel st.2
    (st.1 ++ r.1, qmod (r.2 + seg_len) spacing)

/-- resample_polyline from embroidery_generate_from_points. The closure
compares the final emitted sample against pts[-1], which at the sole call
site is this function's own points argument, embedded here as the
parameter's last element. -/
def resample_polyline (points : List PtXY) (spacing : ℚ) : List PtXY :=
  match points with
  | [] => []
  | [p] => [p]
  | p0 :: p1 :: rest =>
    let segs := (p0 :: p1 :: rest).zip (p1 :: rest)
    let st := segs.foldl (resampleStep spacing) ([⟨p0.x, p0.y⟩], 0)
    let out := st.1
    let lastPt := (p1 :: rest).getLastD p1
    let lastOut := out.getLastD ⟨p0.x, p0.y⟩
    if lastOut.x ≠ lastPt.x ∨ lastOut.y ≠ lastPt.y then
      out ++ [⟨lastPt.x, lastPt.y⟩]
    else out

/-- tangent_at from embroidery_generate_from_points. Python indexes
points[0], points[1], points[-2], points[-1], points[i-1], points[i+1];
embedded with getD (the source would raise on a list too short to index,
which no claim below exercises). -/
def tangent_at (points : List PtXY) (i : Nat) : ℚ × ℚ :=
  let get := fun j => points.getD j ⟨0, 0⟩
  let n := points.length
  let pr :=
    if i = 0 then (get 0, get 1)
    else if n ≤ i + 1 then (get (n - 2), get (n - 1))
    else (get (i - 1), get (i + 1))
  let dx := pr.2.x - pr.1.x
  let dy := pr.2.y - pr.1.y
  let h := hypot dx dy
  let mag := if h = 0 then 1 else h
  (dx / mag, dy / mag)

/-- The outline branch: one stitch per resampled point. -/
def outlinePts (base : List PtXY) : List PlanPoint :=
  base.map fun b => ⟨b.x, b.y, some "stitch", none⟩

/-- The satin branch: per sample, max(1, passes) stitches at shrinking
offsets along the normal, the side flipping every sample. -/
def satinPts (base : List PtXY) (width_px : ℚ) (passes : Int) : List PlanPoint :=
  let p := max 1 passes
  let rec go : List PtXY → Nat → ℚ → List PlanPoint
    | [], _, _ => []
    | b :: rest, i, side =>
      let t := tangent_at base i
      let nx := -t.2
      let ny := t.1
      let row := (List.range p.toNat).map fun pp =>
        let off := (width_px * (1 - (pp : ℚ) / (p : ℚ))) * (1/2)
        (⟨b.x + side * off * nx, b.y + side * off * ny, some "stitch", none⟩ : PlanPoint)
      row ++ go rest (i + 1) (side * (-1))
  go base 0 1

/-- The zigzag branch: one stitch per sample at amplitude width/2 along the
normal, the sign toggling every sample. -/
def zigzagPts (base : List PtXY) (width_px : ℚ) : List PlanPoint :=
  let amp := width_px * (1/2)
  let rec go : List PtXY → Nat → ℚ → List PlanPoint
    | [], _, _ => []
    | b :: rest, i, toggle =>
      let t := tangent_at base i
      let nx := -t.2
      let ny := t.1
      ⟨b.x + toggle * amp * nx, b.y + toggle * amp * ny, some "stitch", none⟩
        :: go rest (i + 1) (toggle * (-1))
  go base 0 1

/-- The double_satin branch: two rails per sample at offsets +width/4 and
-width/2 along the normal. -/
def doubleSatinPts (base : List PtXY) (width_px : ℚ) : List PlanPoint :=
  let rec go : List PtXY → Nat → List PlanPoint
    | [], _ => []
    | b :: rest, i =>
      let t := tangent_at base i
      let nx := -t.2
      let ny := t.1
      let offA := width_px * (1/4)
      let offB := width_px * (1/2)
      ⟨b.x + offA * nx, b.y + offA * ny, some "stitch", none⟩
        :: ⟨b.x - offB * nx, b.y - offB * ny, some "stitch", none⟩
        :: go rest (i + 1)
  go base 0

/-- The meander branch: sinusoidal offset along the normal with phase
accumulating by a fixed frequency per sample; sinf models math.sin. -/
def meanderPts (sinf : ℚ → ℚ) (base : List PtXY) (width_px stitch_len_px : ℚ) :
    List PlanPoint :=
  let freq := max (1/5) (2 / max 1 stitch_len_px)
  let rec go : List PtXY → Nat → ℚ → List PlanPoint
    | [], _, _ => []
    | b :: rest, i, phase =>
      let t := tangent_at base i
      let nx := -t.2
      let ny := t.1
      let phase1 := phase + freq
      let off := sinf phase1 * (width_px * (1/2))
      ⟨b.x + off * nx, b.y + off * ny, some "stitch", none⟩
        :: go rest (i + 1) phase1
  go base 0 0

/-- The contour branch: the fill band range stepped by 2. -/
def contourPts (base : List PtXY) (width_px stitch_len_px : ℚ) : List PlanPoint :=
  let bands := (max 1 ⌊max 2 width_px / max 1 stitch_len_px⌋).toNat
  let rec go : List PtXY → Nat → List PlanPoint
    | [], _ => []
    | b :: rest, i =>
      let t := tangent_at base i
      let nx := -t.2
      let ny := t.1
      let row := (List.range (bands + 1)).map fun k =>
        let bi : ℚ := 2 * (k : ℚ) - (bands : ℚ)
        let off := (bi / (max 1 (bands : Int) : ℚ)) * (width_px * (1/2))
        (⟨b.x + off * nx, b.y + off * ny, some "stitch", none⟩ : PlanPoint)
      row ++ go rest (i + 1)
  go base 0

/-- The ripple branch: nonnegative oscillating offset along the normal with
phase stepping by 0.5 per sample; sinf models math.sin. -/
def ripplePts (sinf : ℚ → ℚ) (base : List PtXY) (width_px : ℚ) : List PlanPoint :=
  let rec go : List PtXY → Nat → ℚ → List PlanPoint
    | [], _, _ => []
    | b :: rest, i, phase =>
      let t := tangent_at base i
      let nx := -t.2
      let ny := t.1
      let phase1 := phase + 1/2
      let amp := (1/2 + 1/2 * sinf phase1) * (width_px * (1/2))
      ⟨b.x + amp * nx, b.y + amp * ny, some "stitch", none⟩
        :: go rest (i + 1) phase1
  go base 0 0

/-- The final else branch (fill): per sample one stitch per integer band
index in [-bands, bands]. -/
def fillPts (base : List PtXY) (width_px stitch_len_px : ℚ) : List PlanPoint :=
  let bands := (max 1 ⌊max 2 width_px / max 1 stitch_len_px⌋).toNat
  let rec go : List PtXY → Nat → List PlanPoint
    | [], _ => []
    | b :: rest, i =>
      let t := tangent_at base i
      let nx := -t.2
      let ny := t.1
      let row := (List.range (2 * bands + 1)).map fun k =>
        let bi : ℚ := (k : ℚ) - (bands : ℚ)
        let off := (bi / (max 1 (bands : Int) : ℚ)) * (width_px * (1/2))
        (⟨b.x + off * nx, b.y + off * ny, some "stitch", none⟩ : PlanPoint)
      row ++ go rest (i + 1)
  go base 0

/-- The pixel spacing computed by embroidery_generate_from_points before the
max(1.0, -) clamp. -/
def gfp_stitch_len_px (req : GenerateFromPointsReq) : ℚ :=
  let s := if 0 < req.mm_per_px then req.stitch_len_mm / req.mm_per_px
           else req.stitch_len_mm
  if 0 < req.density then s / max (1/4) req.density else s

/-- The strategy dispatch of embroidery_generate_from_points: every branch
except the seven named ones runs the fill code. -/
def gfp_dispatch (sinf : ℚ → ℚ) (strategy : String) (base : List PtXY)
    (width_px stitch_len_px : ℚ) (passes : Int) : List PlanPoint :=
  if strategy = "outline" then outlinePts base
  else if strategy = "satin" then satinPts base width_px passes
  else if strategy = "zigzag" then zigzagPts base width_px
  else if strategy = "double_satin" then doubleSatinPts base width_px
  else if strategy = "meander" then meanderPts sinf base width_px stitch_len_px
  else if strategy = "contour" then contourPts base width_px stitch_len_px
  else if strategy = "ripple" then ripplePts sinf base width_px
  else fillPts base width_px stitch_len_px

/-- POST /embroidery/generate_from_points (embroidery_generate_from_points).
sinf models math.sin, which the source uses only in the meander and ripple
branches. -/
def embroidery_generate_from_points (sinf : ℚ → ℚ)
    (req : GenerateFromPointsReq) : GenResp :=
  let pts := req.points
  if pts.length < 2 then ⟨true, [], ⟨0, none, none, none, none, none⟩⟩
  else
    let stitch_len_px := gfp_stitch_len_px req
    let width_px := if 0 < req.mm_per_px then req.width_mm / req.mm_per_px
                    else req.width_mm
    let base := resample_polyline pts (max 1 stitch_len_px)
    let b0 := base.headD ⟨0, 0⟩
    let marker : PlanPoint := ⟨b0.x, b0.y, some "color_change", some "#000000"⟩
    let plan_pts := marker ::
      gfp_dispatch sinf req.strategy base width_px stitch_len_px req.passes
    ⟨true, plan_pts,
      ⟨(plan_pts.filter fun p => p.type == some "stitch").length,
        some req.strategy, some req.mm_per_px, some req.stitch_len_mm,
        some req.width_mm, some req.passes⟩⟩

/-! ## SVG pipeline (svg_to_stitches) -/

/-- The stroke/fill attributes svg2paths2 associates with a path. -/
structure SvgAttr where
  stroke : Option String := none
  fill : Option String := none

/-- An svgpathtools path as the source consumes it: total length (the source
always calls length with error=1e-3, so one value), and point/derivative at
a parameter. The file parsing producing these is outside the core. -/
structure Curve where
  length : ℚ
  point : ℚ → ℚ × ℚ
  derivative : ℚ → ℚ × ℚ

/-- The whitespace characters Python str.strip removes (ASCII range). -/
def pyWhitespace (c : Char) : Bool :=
  c = ' ' || c = '\t' || c = '\n' || c = '\r' || c = '\x0b' || c = '\x0c'

/-- Python s.strip(): drop whitespace from both ends. -/
def py_strip (s : String) : String :=
  ⟨((s.data.dropWhile pyWhitespace).reverse.dropWhile pyWhitespace).reverse⟩

/-- _parse_color: empty or missing input maps to #000000, any other string
passes through stripped. -/
def _parse_color (s : Option String) : String :=
  match s with
  | none => "#000000"
  | some s => if s = "" then "#000000" else py_strip s

/-- A per-layer entry of the svg info dict. -/
structure SvgLayer where
  index : Nat
  count : Nat
  color : String
deriving DecidableEq, Repr

/-- The info dict of an svg_to_stitches result. -/
structure SvgInfo where
  stitch_count : Nat
  layers : List SvgLayer
  strategy : String
  mm_per_px : ℚ
  stitch_len_mm : ℚ
  width_mm : ℚ
  passes : Int
deriving DecidableEq, Repr

/-- An svg_to_stitches result. -/
structure SvgResp where
  ok : Bool
  points : List PlanPoint
  info : SvgInfo
deriving DecidableEq, Repr

/-- sample_path: n = max(1, int(length // max(0.5, spacing))) uniform
parameter samples at t = k/n for k = 0..n. -/
def sample_path (c : Curve) (spacing : ℚ) : List PlanPoint :=
  let n := (max 1 ⌊c.length / max (1/2) spacing⌋).toNat
  (List.range (n + 1)).map fun k =>
    let t := (k : ℚ) / (max 1 (n : Int) : ℚ)
    let z := c.point t
    ⟨z.1, z.2, some "stitch", none⟩

/-- sample_path_with_derivs: the same samples together with the derivative. -/
def sample_path_with_derivs (c : Curve) (spacing : ℚ) :
    List (ℚ × ℚ × ℚ × ℚ) :=
  let n := (max 1 ⌊c.length / max (1/2) spacing⌋).toNat
  (List.range (n + 1)).map fun k =>
    let t := (k : ℚ) / (max 1 (n : Int) : ℚ)
    let z := c.point t
    let dz := c.derivative t
    (z.1, z.2, dz.1, dz.2)

/-- The svg satin branch: zig-zag across path normals, passes offsets per
sample, side flipping every sample. -/
def svgSatinPts (base : List (ℚ × ℚ × ℚ × ℚ)) (width_px : ℚ) (passes : Int) :
    List PlanPoint :=
  let p := max 1 passes
  let rec go : List (ℚ × ℚ × ℚ × ℚ) → ℚ → List PlanPoint
    | [], _ => []
    | b :: rest, side =>
      let dx := b.2.2.1
      let dy := b.2.2.2
      let h := ratSqrt (dx * dx + dy * dy)
      let mag := if h = 0 then 1 else h
      let nx := -dy / mag
      let ny := dx / mag
      let w := width_px
      let row := (List.range p.toNat).map fun pp =>
        let off := (w * (1 - (pp : ℚ) / (p : ℚ))) * (1/2)
        (⟨b.1 + side * off * nx, b.2.1 + side * off * ny, some "stitch", none⟩ : PlanPoint)
      row ++ go rest (side * (-1))
  go base 1

/-- The svg fill branch: a row of stitches across the width at every
sample. -/
def svgFillPts (base : List (ℚ × ℚ × ℚ × ℚ)) (width_px stitch_len_px : ℚ) :
    List PlanPoint :=
  let bands := (max 1 ⌊max 2 width_px / max 1 stitch_len_px⌋).toNat
  base.flatMap fun b =>
    let dx := b.2.2.1
    let dy := b.2.2.2
    let h := ratSqrt (dx * dx + dy * dy)
    let mag := if h = 0 then 1 else h
    let nx := -dy / mag
    let ny := dx / mag
    (List.range (2 * bands + 1)).map fun k =>
      let bi : ℚ := (k : ℚ) - (bands : ℚ)
      let off := (bi / (max 1 (bands : Int) : ℚ)) * (width_px * (1/2))
      (⟨b.1 + off * nx, b.2.1 + off * ny, some "stitch", none⟩ : PlanPoint)

/-- The per-path strategy dispatch of svg_to_stitches: outline, satin and
fill are named; every other strategy string runs the same sample_path code
as outline. -/
def svg_dispatch (strategy : String) (c : Curve) (width_px stitch_len_px : ℚ)
    (passes : Int) : List PlanPoint :=
  if strategy = "outline" then sample_path c stitch_len_px
  else if strategy = "satin" then
    svgSatinPts (sample_path_with_derivs c stitch_len_px) width_px passes
  else if strategy = "fill" then
    svgFillPts (sample_path_with_derivs c stitch_len_px) width_px stitch_len_px
  else sample_path c stitch_len_px

/-- The per-path body of svg_to_stitches, accumulating (points, layers) over
the enumerated paths. -/
def svgStep (strategy : String) (width_px stitch_len_px : ℚ) (passes : Int)
    (st : List PlanPoint × List SvgLayer) (ic : Nat × Curve × SvgAttr) :
    List PlanPoint × List SvgLayer :=
  let i := ic.1
  let c := ic.2.1
  let a := ic.2.2
  let stroke := _parse_color a.stroke
  let fillc : Option String :=
    if a.fill ≠ none ∧ a.fill ≠ some "none" then some (_parse_color a.fill)
    else none
  if c.length ≤ 0 then st
  else
    let layer_color :=
      if stroke ≠ "" then stroke
      else match fillc with
        | some f => if f ≠ "" then f else "#000000"
        | none => "#000000"
    let layer_pts := svg_dispatch strategy c width_px stitch_len_px passes
    match layer_pts with
    | [] => st
    | p0 :: _ =>
      (st.1 ++ (⟨p0.x, p0.y, some "color_change", some layer_color⟩ :: layer_pts),
       st.2 ++ [⟨i, layer_pts.length, layer_color⟩])

/-- svg_to_stitches, embedded from the point where svg2paths2 has produced
the path/attribute list (file I/O and the svgpathtools capability check are
the transport boundary). -/
def svg_to_stitches (paths : List (Curve × SvgAttr)) (mm_per_px : ℚ)
    (stitch_len_mm : ℚ) (strategy : String) (density : ℚ) (width_mm : ℚ)
    (passes : Int) : SvgResp :=
  let stitch_len_px :=
    (if 0 < mm_per_px then stitch_len_mm / mm_per_px else stitch_len_mm) /
      max (1/4) density
  let width_px := if 0 < mm_per_px then width_mm / mm_per_px else width_mm
  let st := paths.enum.foldl
    (svgStep strategy width_px stitch_len_px passes) (([], []) : List PlanPoint × List SvgLayer)
  ⟨true, st.1,
    ⟨(st.1.filter fun p => p.type == some "stitch").length, st.2, strategy,
      mm_per_px, stitch_len_mm, width_mm, passes⟩⟩

/-! ## Machine codec -/

/-- pyembroidery command constants used by the source. -/
def STITCH : Nat := 0

/-- pyembroidery JUMP command constant. -/
def JUMP : Nat := 1

/-- pyembroidery TRIM command constant. -/
def TRIM : Nat := 2

/-- pyembroidery STOP command constant. -/
def STOP : Nat := 3

/-- pyembroidery END command constant. -/
def END : Nat := 4

/-- pyembroidery COLOR_CHANGE command constant. -/
def COLOR_CHANGE : Nat := 5

/-- stitch_flags_to_str. With pyembroidery absent it returns the string
stitch; with pyembroidery present the function body ends after the guard,
so Python returns None: the block matching flag bits by priority sits
unreachable after the return statement of running_stitches_to_dst
(source lines 252-262) and never executes. -/
def stitch_flags_to_str (hasPyembroidery : Bool) (_flags : Nat) : Option String :=
  if ¬hasPyembroidery then some "stitch" else none

/-- Modelled from the spec: one fixed-width record of the binary machine
container, a 2D delta movement plus a command flag (spec sections 4.4
and 6); the vendor byte layout realized by pyembroidery write/read is not
part of this repository. -/
structure MachineRecord where
  dx : ℚ
  dy : ℚ
  cmd : Nat
deriving DecidableEq, Repr

/-- Modelled from the spec: the encoder's translation of absolute stitches
into relative delta records, threading the previous absolute position
(spec section 4.4, the write step pyembroidery performs). -/
def toDeltas (prev : ℚ × ℚ) : List (ℚ × ℚ × Nat) → List MachineRecord
  | [] => []
  | (x, y, c) :: rest => ⟨x - prev.1, y - prev.2, c⟩ :: toDeltas (x, y) rest

/-- Modelled from the spec: the decoder's accumulation of delta records back
into absolute coordinates (spec section 4.4, the read step pyembroidery
performs). -/
def fromDeltas (pos : ℚ × ℚ) : List MachineRecord → List (ℚ × ℚ × Nat)
  | [] => []
  | r :: rest =>
    let x := pos.1 + r.dx
    let y := pos.2 + r.dy
    (x, y, r.cmd) :: fromDeltas (x, y) rest

/-- running_stitches_to_dst: every point, whatever its type key says, is
added as an absolute STITCH normalized so the first point sits at the
origin; pattern.end() then appends an END command at the final position.
The result is the container's record list (empty input returns empty
bytes). -/
def running_stitches_to_dst (points : List PlanPoint) : List MachineRecord :=
  match points with
  | [] => []
  | p0 :: _ =>
    let abs := points.map fun p => (p.x - p0.x, p.y - p0.y, STITCH)
    let lastPos := (points.map fun p => (p.x - p0.x, p.y - p0.y)).getLastD (0, 0)
    toDeltas (0, 0) (abs ++ [(lastPos.1, lastPos.2, END)])

/-- The info dict of a parsed machine file. -/
structure ParseInfo where
  stitch_count : Nat
  jump_count : Nat
  trim_count : Nat
  color_changes : Nat
deriving DecidableEq, Repr

/-- A parse_machine_file_to_plan result. -/
structure ParseResp where
  ok : Bool
  points : List PlanPoint
  info : ParseInfo
deriving DecidableEq, Repr

/-- parse_machine_file_to_plan with pyembroidery present, embedded from the
point where read has recovered the pattern's absolute (x, y, flags)
records from the container's deltas. -/
def parse_machine_file_to_plan (records : List MachineRecord) : ParseResp :=
  let sts := fromDeltas (0, 0) records
  let points : List PlanPoint :=
    sts.map fun s => ⟨s.1, s.2.1, stitch_flags_to_str true s.2.2, none⟩
  ⟨true, points,
    ⟨(points.filter fun p => p.type == some "stitch").length,
     (points.filter fun p => p.type == some "jump").length,
     (points.filter fun p => p.type == some "trim").length,
     (points.filter fun p => p.type == some "color_change").length⟩⟩

/-! ## Sequence optimizer (optimize_stitch_sequence) -/

/-- One stitch group handed to the optimizer: its points list plus the rest
of the dict payload (id, type, color, ...), which the source moves around
untouched; payload distinguishes otherwise-equal groups. -/
structure StitchGroup where
  points : List PtXY
  payload : Nat := 0
deriving DecidableEq, Repr

/-- The squared Euclidean distance the optimizer compares. The source
compares math.sqrt of this quantity; the real square root is strictly
increasing on nonnegative input, so comparing the squares selects exactly
the same group at every step (the bridge is proved in the C7 theorem). -/
def dist2 (p q : PtXY) : ℚ := (p.x - q.x) ^ 2 + (p.y - q.y) ^ 2

/-- The find-closest scan of optimize_stitch_sequence: fold over the
enumerated remaining groups keeping (closest_idx, min_distance), None
standing for the initial infinity, groups with an empty points list
skipped, strict comparison keeping the earliest index on ties. -/
def findClosestAux (lastPoint : PtXY) :
    List StitchGroup → Nat → Nat × Option ℚ → Nat × Option ℚ
  | [], _, best => best
  | g :: rest, i, best =>
    let best1 :=
      match g.points with
      | [] => best
      | fp :: _ =>
        let d := dist2 fp lastPoint
        match best.2 with
        | none => (i, some d)
        | some m => if d < m then (i, some d) else best
    findClosestAux lastPoint rest (i + 1) best1

/-- The index the optimizer pops next. -/
def findClosestIdx (lastPoint : PtXY) (remaining : List StitchGroup) : Nat :=
  (findClosestAux lastPoint remaining 0 (0, none)).1

/-- The while remaining loop of optimize_stitch_sequence; the fuel is the
initial length of remaining, and every iteration pops exactly one group. -/
def optimizeLoop : Nat → StitchGroup → List StitchGroup → List StitchGroup
  | 0, _, _ => []
  | _ + 1, _, [] => []
  | fuel + 1, last, remaining =>
    let lastPoint := last.points.getLastD ⟨0, 0⟩
    let idx := findClosestIdx lastPoint remaining
    let chosen := remaining.getD idx ⟨[], 0⟩
    chosen :: optimizeLoop fuel chosen (remaining.eraseIdx idx)

/-- optimize_stitch_sequence: keep the first group, then repeatedly append
the remaining group whose first point is closest to the last point of the
last placed group. -/
def optimize_stitch_sequence (stitches : List StitchGroup) : List StitchGroup :=
  match stitches with
  | [] => []
  | s0 :: rest => s0 :: optimizeLoop rest.length s0 rest

/-- Minimum of a distance list (0 on the empty list, never consulted
there). -/
def minOf : List ℚ → ℚ
  | [] => 0
  | d :: rest => rest.foldl min d

/-- Index of the first element attaining the minimum of the list: the
claim's selection rule, minimum distance with ties broken by the earliest
index. -/
def firstArgmin : List ℚ → Nat
  | [] => 0
  | [_] => 0
  | d :: rest => if d ≤ minOf rest then 0 else firstArgmin rest + 1

/-- The distance from a group's first point to the current last point, as
the claim measures candidates. -/
def groupDist (lastPoint : PtXY) (g : StitchGroup) : ℚ :=
  dist2 (g.points.headD ⟨0, 0⟩) lastPoint

/-- The claim's greedy loop: at each step choose the remaining group whose
first point has minimum distance to the last point of the already-placed
sequence, earliest original index on ties. -/
def optimizeSpecLoop : Nat → StitchGroup → List StitchGroup → List StitchGroup
  | 0, _, _ => []
  | _ + 1, _, [] => []
  | fuel + 1, last, remaining =>
    let lastPoint := last.points.getLastD ⟨0, 0⟩
    let idx := firstArgmin (remaining.map (groupDist lastPoint))
    let chosen := remaining.getD idx ⟨[], 0⟩
    chosen :: optimizeSpecLoop fuel chosen (remaining.eraseIdx idx)

/-- The claim's optimizer, stated from its words: first group fixed, then
the greedy minimum-distance choice with earliest-index tie-break. -/
def optimize_spec (stitches : List StitchGroup) : List StitchGroup :=
  match stitches with
  | [] => []
  | s0 :: rest => s0 :: optimizeSpecLoop rest.length s0 rest

/-! ## Parameter validation boundary -/

/-- The constraints FastAPI enforces on /embroidery/generate query
parameters: mm_per_px, stitch_len_mm and density are declared with
Query(..., gt=0); a request violating one is rejected with a validation
error before svg_to_stitches runs. No passes or width_mm query parameters
exist on that endpoint, and GenerateFromPointsReq declares no constraint
on any field. -/
def embroidery_generate_params_valid (mm_per_px stitch_len_mm density : ℚ) :
    Bool :=
  (0 < mm_per_px) && (0 < stitch_len_mm) && (0 < density)

/-- The total arc length of a polyline in pixels: the sum of its segment
lengths. -/
def totalArcLen (points : List PtXY) : ℚ :=
  ((points.zip points.tail).map fun seg =>
    hypot (seg.2.x - seg.1.x) (seg.2.y - seg.1.y)).sum

/-! ## Supporting lemmas -/

theorem fromDeltas_toDeltas (xs : List (ℚ × ℚ × Nat)) :
    ∀ p : ℚ × ℚ, fromDeltas p (toDeltas p xs) = xs := by
  induction xs with
  | nil => intro p; rfl
  | cons hd t ih =>
    rintro ⟨px, py⟩
    obtain ⟨x, y, c⟩ := hd
    simp only [toDeltas, fromDeltas]
    have hx : px + (x - px) = x := by ring
    have hy : py + (y - py) = y := by ring
    rw [hx, hy, ih (x, y)]

theorem map_getLastD_cons {α β : Type} (f : α → β) :
    ∀ (l : List α) (x : α) (b : β),
      ((x :: l).map f).getLastD b = f (l.getLastD x) := by
  intro l
  induction l with
  | nil => intro x b; rfl
  | cons y t ih =>
    intro x b
    rw [List.map_cons, List.getLastD_cons, List.getLastD_cons]
    exact ih y (f x)

theorem foldl_min_min (l : List ℚ) :
    ∀ a b : ℚ, l.foldl min (min a b) = min a (l.foldl min b) := by
  induction l with
  | nil => intro a b; rfl
  | cons c t ih =>
    intro a b
    show t.foldl min (min (min a b) c) = min a (t.foldl min (min b c))
    rw [min_assoc, ih]

theorem minOf_cons (d e : ℚ) (t : List ℚ) :
    minOf (d :: e :: t) = min d (minOf (e :: t)) :=
  foldl_min_min t d e

theorem findClosestAux_char (lp : PtXY) :
    ∀ (rem : List StitchGroup) (i j : Nat) (m : ℚ),
      (∀ g ∈ rem, g.points ≠ []) →
      rem ≠ [] →
      findClosestAux lp rem i (j, some m) =
        if m ≤ minOf (rem.map (groupDist lp)) then (j, some m)
        else (i + firstArgmin (rem.map (groupDist lp)),
              some (minOf (rem.map (groupDist lp)))) := by
  intro rem
  induction rem with
  | nil => intro i j m _ hne; exact absurd rfl hne
  | cons g rest ih =>
    intro i j m hall _
    obtain ⟨hg, hrest⟩ := List.forall_mem_cons.mp hall
    obtain ⟨fp, tl, hfp⟩ := List.exists_cons_of_ne_nil hg
    have hgd : groupDist lp g = dist2 fp lp := by
      unfold groupDist
      rw [hfp]
      rfl
    have hstep : findClosestAux lp (g :: rest) i (j, some m) =
        findClosestAux lp rest (i + 1)
          (if dist2 fp lp < m then (i, some (dist2 fp lp)) else (j, some m)) := by
      simp only [findClosestAux, hfp]
    rw [hstep, List.map_cons, hgd]
    set d := dist2 fp lp with hd
    cases rest with
    | nil =>
      simp only [List.map_nil]
      by_cases hlt : d < m
      · rw [if_pos hlt]
        show (i, some d) = _
        have hnotle : ¬ m ≤ minOf [d] := not_le.mpr hlt
        rw [if_neg hnotle]
        simp [firstArgmin, minOf]
      · rw [if_neg hlt]
        show (j, some m) = _
        have hle : m ≤ minOf [d] := le_of_not_lt hlt
        rw [if_pos hle]
    | cons g2 rest2 =>
      have hne2 : g2 :: rest2 ≠ [] := List.cons_ne_nil g2 rest2
      have hmapne : (g2 :: rest2).map (groupDist lp) ≠ [] := by simp
      set ds' := (g2 :: rest2).map (groupDist lp) with hds'
      obtain ⟨e, t, het⟩ : ∃ e t, ds' = e :: t := by
        cases hh : ds' with
        | nil => exact absurd hh hmapne
        | cons e t => exact ⟨e, t, rfl⟩
      have hminc : minOf (d :: ds') = min d (minOf ds') := by
        rw [het]; exact minOf_cons d e t
      have hfac : firstArgmin (d :: ds') =
          if d ≤ minOf ds' then 0 else firstArgmin ds' + 1 := by
        rw [het]; rfl
      by_cases hlt : d < m
      · rw [if_pos hlt]
        rw [ih (i + 1) i d hrest hne2]
        by_cases hdm : d ≤ minOf ds'
        · rw [if_pos hdm]
          have hmle : ¬ m ≤ minOf (d :: ds') := by
            rw [hminc]
            exact not_le.mpr (lt_of_le_of_lt (min_le_left d (minOf ds')) hlt)
          rw [if_neg hmle, hfac, if_pos hdm]
          rw [hminc, min_eq_left hdm]
          simp
        · rw [if_neg hdm]
          have hmo : minOf ds' < d := lt_of_not_le hdm
          have hmle : ¬ m ≤ minOf (d :: ds') := by
            rw [hminc, min_eq_right (le_of_lt hmo)]
            exact not_le.mpr (lt_trans hmo hlt)
          rw [if_neg hmle, hfac, if_neg hdm]
          rw [hminc, min_eq_right (le_of_lt hmo)]
          refine congrArg₂ _ ?_ rfl
          omega
      · rw [if_neg hlt]
        have hmd : m ≤ d := le_of_not_lt hlt
        rw [ih (i + 1) j m hrest hne2]
        by_cases hmm : m ≤ minOf ds'
        · rw [if_pos hmm]
          have : m ≤ minOf (d :: ds') := by
            rw [hminc]
            exact le_min hmd hmm
          rw [if_pos this]
        · rw [if_neg hmm]
          have hmo : minOf ds' < m := lt_of_not_le hmm
          have hmod : minOf ds' < d := lt_of_lt_of_le hmo hmd
          have hnle : ¬ m ≤ minOf (d :: ds') := by
            rw [hminc, min_eq_right (le_of_lt hmod)]
            exact not_le.mpr hmo
          rw [if_neg hnle, hfac, if_neg (not_le.mpr hmod)]
          rw [hminc, min_eq_right (le_of_lt hmod)]
          refine congrArg₂ _ ?_ rfl
          omega

theorem findClosestIdx_eq (lp : PtXY) (rem : List StitchGroup)
    (hall : ∀ g ∈ rem, g.points ≠ []) :
    findClosestIdx lp rem = firstArgmin (rem.map (groupDist lp)) := by
  cases rem with
  | nil => rfl
  | cons g rest =>
    obtain ⟨hg, hrest⟩ := List.forall_mem_cons.mp hall
    obtain ⟨fp, tl, hfp⟩ := List.exists_cons_of_ne_nil hg
    have hgd : groupDist lp g = dist2 fp lp := by
      unfold groupDist
      rw [hfp]
      rfl
    have hstep : findClosestAux lp (g :: rest) 0 (0, none) =
        findClosestAux lp rest 1 (0, some (dist2 fp lp)) := by
      simp only [findClosestAux, hfp]
    unfold findClosestIdx
    rw [hstep, List.map_cons, hgd]
    set d := dist2 fp lp with hd
    cases rest with
    | nil => rfl
    | cons g2 rest2 =>
      have hne2 : g2 :: rest2 ≠ [] := List.cons_ne_nil g2 rest2
      set ds' := (g2 :: rest2).map (groupDist lp) with hds'
      obtain ⟨e, t, het⟩ : ∃ e t, ds' = e :: t := by
        cases hh : ds' with
        | nil => simp [hds'] at hh
        | cons e t => exact ⟨e, t, rfl⟩
      have hfac : firstArgmin (d :: ds') =
          if d ≤ minOf ds' then 0 else firstArgmin ds' + 1 := by
        rw [het]; rfl
      rw [findClosestAux_char lp (g2 :: rest2) 1 0 d hrest hne2]
      by_cases hdm : d ≤ minOf ds'
      · rw [if_pos hdm, hfac, if_pos hdm]
      · rw [if_neg hdm, hfac, if_neg hdm]
        exact Nat.add_comm 1 (firstArgmin ds')

theorem optimizeLoop_eq_spec :
    ∀ (fuel : Nat) (last : StitchGroup) (remaining : List StitchGroup),
      (∀ g ∈ remaining, g.points ≠ []) →
      optimizeLoop fuel last remaining = optimizeSpecLoop fuel last remaining := by
  intro fuel
  induction fuel with
  | zero => intros; rfl
  | succ n ih =>
    intro last remaining hall
    cases remaining with
    | nil => rfl
    | cons g rest =>
      simp only [optimizeLoop, optimizeSpecLoop]
      rw [findClosestIdx_eq _ _ hall]
      have hallE : ∀ h ∈ (g :: rest).eraseIdx
          (firstArgmin ((g :: rest).map
            (groupDist (last.points.getLastD ⟨0, 0⟩)))), h.points ≠ [] :=
        fun h hmem => hall h (List.eraseIdx_subset _ _ hmem)
      rw [ih _ _ hallE]

/-- First-argmin characterization: the selected index is in range, attains
the minimum, and every earlier index is strictly worse. -/
theorem firstArgmin_spec :
    ∀ ds : List ℚ, ds ≠ [] →
      firstArgmin ds < ds.length ∧
      ds.getD (firstArgmin ds) 0 = minOf ds ∧
      (∀ j < ds.length, minOf ds ≤ ds.getD j 0) ∧
      (∀ j < firstArgmin ds, minOf ds < ds.getD j 0) := by
  intro ds
  induction ds with
  | nil => intro h; exact absurd rfl h
  | cons d rest ih =>
    intro _
    cases rest with
    | nil =>
      refine ⟨by simp [firstArgmin], by simp [firstArgmin, minOf], ?_, ?_⟩
      · intro j hj
        simp only [List.length_cons, List.length_nil] at hj
        have hj0 : j = 0 := by omega
        subst hj0
        simp [minOf]
      · intro j hj
        simp [firstArgmin] at hj
    | cons e t =>
      obtain ⟨ih1, ih2, ih3, ih4⟩ := ih (List.cons_ne_nil e t)
      have hminc := minOf_cons d e t
      have hfac : firstArgmin (d :: e :: t) =
          if d ≤ minOf (e :: t) then 0 else firstArgmin (e :: t) + 1 := rfl
      by_cases hdm : d ≤ minOf (e :: t)
      · rw [hfac, if_pos hdm]
        refine ⟨by simp, ?_, ?_, ?_⟩
        · rw [hminc, min_eq_left hdm]
          rfl
        · intro j hj
          rw [hminc, min_eq_left hdm]
          cases j with
          | zero => simp
          | succ k =>
            rw [List.getD_cons_succ]
            exact le_trans hdm (ih3 k (by simpa using hj))
        · intro j hj
          omega
      · rw [hfac, if_neg hdm]
        have hmo : minOf (e :: t) < d := lt_of_not_le hdm
        have hmm : minOf (d :: e :: t) = minOf (e :: t) := by
          rw [hminc, min_eq_right (le_of_lt hmo)]
        refine ⟨by simpa using ih1, ?_, ?_, ?_⟩
        · rw [hmm, List.getD_cons_succ]
          exact ih2
        · intro j hj
          rw [hmm]
          cases j with
          | zero => exact le_of_lt hmo
          | succ k =>
            rw [List.getD_cons_succ]
            exact ih3 k (by simpa using hj)
        · intro j hj
          rw [hmm]
          cases j with
          | zero => exact hmo
          | succ k =>
            rw [List.getD_cons_succ]
            exact ih4 k (by omega)

theorem dist2_nonneg (p q : PtXY) : 0 ≤ dist2 p q :=
  add_nonneg (sq_nonneg _) (sq_nonneg _)

theorem foldl_resampleStep_ne_nil (spacing : ℚ) :
    ∀ (segs : List (PtXY × PtXY)) (st : List PtXY × ℚ), st.1 ≠ [] →
      (segs.foldl (resampleStep spacing) st).1 ≠ [] := by
  intro segs
  induction segs with
  | nil => intro st h; exact h
  | cons sg t ih =>
    intro st h
    apply ih
    simp only [resampleStep]
    split
    · exact h
    · intro contra
      rw [List.append_eq_nil] at contra
      exact h contra.1

theorem getLastD_cons_irrel {α : Type} (l : List α) (x : α) (d1 d2 : α) :
    (x :: l).getLastD d1 = (x :: l).getLastD d2 := by
  rw [List.getLastD_cons, List.getLastD_cons]

theorem getLastD_irrel_of_ne_nil {α : Type} (l : List α) (h : l ≠ [])
    (d1 d2 : α) : l.getLastD d1 = l.getLastD d2 := by
  cases l with
  | nil => exact absurd rfl h
  | cons x t => exact getLastD_cons_irrel t x d1 d2

theorem ratSqrt_nonneg (q : ℚ) : 0 ≤ ratSqrt q := by
  unfold ratSqrt
  split
  · exact le_refl 0
  · positivity

theorem hypot_nonneg (dx dy : ℚ) : 0 ≤ hypot dx dy := ratSqrt_nonneg _

theorem hypot_zero : hypot 0 0 = 0 := by
  unfold hypot ratSqrt
  norm_num

theorem qmod_nonneg (a : ℚ) {b : ℚ} (hb : 0 < b) : 0 ≤ qmod a b := by
  unfold qmod
  have h1 : (⌊a / b⌋ : ℚ) ≤ a / b := Int.floor_le _
  have h2 : b * (⌊a / b⌋ : ℚ) ≤ b * (a / b) := by
    exact mul_le_mul_of_nonneg_left h1 (le_of_lt hb)
  have h3 : b * (a / b) = a := by
    field_simp
  linarith

/-- Closed form of the resampling while loop for positive spacing and
sufficient fuel: it emits exactly floor((seg_len - acc) / spacing) samples
at arc positions acc + spacing, acc + 2 spacing, ..., and ends with the
accumulator on the last emitted position. -/
theorem sampleLoop_closed (x0 y0 ux uy s L : ℚ) (hs : 0 < s) :
    ∀ (fuel : Nat) (acc : ℚ), (L - acc) / s < (fuel : ℚ) →
      sampleLoop x0 y0 ux uy s L fuel acc =
        (((List.range (⌊(L - acc) / s⌋).toNat).map fun (j : Nat) =>
          (⟨x0 + ux * (acc + ((j : ℚ) + 1) * s),
            y0 + uy * (acc + ((j : ℚ) + 1) * s)⟩ : PtXY)),
         acc + ((⌊(L - acc) / s⌋).toNat : ℚ) * s) := by
  intro fuel
  induction fuel with
  | zero =>
    intro acc hfu
    have h0 : ⌊(L - acc) / s⌋ < 0 := by
      rw [Int.floor_lt]
      exact_mod_cast hfu
    have hm : (⌊(L - acc) / s⌋).toNat = 0 := by omega
    rw [hm]
    simp [sampleLoop]
  | succ n ih =>
    intro acc hfu
    by_cases hg : acc + s ≤ L
    · have hone : (1 : ℚ) ≤ (L - acc) / s := by
        rw [le_div_iff₀ hs]
        linarith
      have hge1 : 1 ≤ ⌊(L - acc) / s⌋ := by
        rw [Int.le_floor]
        exact_mod_cast hone
      have hdiv : (L - (acc + s)) / s = (L - acc) / s - 1 := by
        rw [show L - (acc + s) = (L - acc) - s by ring, sub_div,
          div_self (ne_of_gt hs)]
      have hfloor : ⌊(L - (acc + s)) / s⌋ = ⌊(L - acc) / s⌋ - 1 := by
        rw [hdiv]
        exact_mod_cast Int.floor_sub_int ((L - acc) / s) 1
      have hm : (⌊(L - acc) / s⌋).toNat = (⌊(L - (acc + s)) / s⌋).toNat + 1 := by
        omega
      have hfu2 : (L - (acc + s)) / s < (n : ℚ) := by
        rw [hdiv]
        push_cast at hfu ⊢
        linarith
      have hstep : sampleLoop x0 y0 ux uy s L (n + 1) acc =
          ((⟨x0 + ux * (acc + s), y0 + uy * (acc + s)⟩ : PtXY) ::
            (sampleLoop x0 y0 ux uy s L n (acc + s)).1,
           (sampleLoop x0 y0 ux uy s L n (acc + s)).2) := by
        simp only [sampleLoop, if_pos hg]
      rw [hstep, ih (acc + s) hfu2, hm]
      rw [List.range_succ_eq_map, List.map_cons, List.map_map]
      refine congrArg₂ _ ?_ ?_
      · refine congrArg₂ _ ?_ ?_
        · rw [PtXY.mk.injEq]
          constructor <;> push_cast <;> ring_nf
        · refine List.map_congr_left ?_
          intro j _
          simp only [Function.comp]
          rw [PtXY.mk.injEq]
          constructor <;> push_cast <;> ring
      · push_cast
        ring
    · have hlt : (L - acc) / s < 1 := by
        rw [div_lt_one hs]
        linarith
      have h0 : ⌊(L - acc) / s⌋ < 1 := by
        rw [Int.floor_lt]
        exact_mod_cast hlt
      have hm : (⌊(L - acc) / s⌋).toNat = 0 := by omega
      rw [hm]
      simp [sampleLoop, if_neg hg]

/-- The fuel the resampler passes to the loop satisfies the closed-form
hypothesis whenever the segment is live (positive length) and the spacing
is positive. -/
theorem resample_fuel_ok {L s acc : ℚ} :
    (L - acc) / s < ((⌊(L - acc) / s⌋.toNat + 1 : Nat) : ℚ) := by
  have h1 : (L - acc) / s < (⌊(L - acc) / s⌋ : ℚ) + 1 := Int.lt_floor_add_one _
  have h2 : (⌊(L - acc) / s⌋ : ℚ) ≤ ((⌊(L - acc) / s⌋.toNat : ℤ) : ℚ) := by
    exact_mod_cast Int.self_le_toNat _
  push_cast at h2 ⊢
  linarith

theorem sampleLoop_len_mul (x0 y0 ux uy s L : ℚ) (hs : 0 < s) :
    ∀ (fuel : Nat) (acc : ℚ),
      ((sampleLoop x0 y0 ux uy s L fuel acc).1.length : ℚ) * s ≤
        max 0 (L - acc) := by
  intro fuel
  induction fuel with
  | zero =>
    intro acc
    simp [sampleLoop, le_max_iff]
  | succ n ih =>
    intro acc
    by_cases hg : acc + s ≤ L
    · have hstep : (sampleLoop x0 y0 ux uy s L (n + 1) acc).1 =
          (⟨x0 + ux * (acc + s), y0 + uy * (acc + s)⟩ : PtXY) ::
            (sampleLoop x0 y0 ux uy s L n (acc + s)).1 := by
        simp only [sampleLoop, if_pos hg]
      rw [hstep]
      have hih := ih (acc + s)
      have hmax : max 0 (L - (acc + s)) = L - (acc + s) := by
        rw [max_eq_right]
        linarith
      rw [hmax] at hih
      have hmax2 : max 0 (L - acc) = L - acc := by
        rw [max_eq_right]
        linarith
      rw [hmax2, List.length_cons]
      push_cast
      linarith
    · have hstep : (sampleLoop x0 y0 ux uy s L (n + 1) acc).1 = [] := by
        simp only [sampleLoop, if_neg hg]
      rw [hstep]
      simp [le_max_iff]

theorem sampleLoop_len_le (x0 y0 ux uy s L : ℚ) (hs1 : 1 ≤ s)
    (fuel : Nat) (acc : ℚ) (hacc : 0 ≤ acc) (hL : 0 ≤ L) :
    ((sampleLoop x0 y0 ux uy s L fuel acc).1.length : ℚ) ≤ L := by
  have hs : 0 < s := lt_of_lt_of_le one_pos hs1
  have h1 := sampleLoop_len_mul x0 y0 ux uy s L hs fuel acc
  set n : ℚ := ((sampleLoop x0 y0 ux uy s L fuel acc).1.length : ℚ) with hn
  have hn0 : 0 ≤ n := by positivity
  have h2 : n * 1 ≤ n * s := by
    exact mul_le_mul_of_nonneg_left hs1 hn0
  have h3 : max 0 (L - acc) ≤ L := by
    rw [max_le_iff]
    constructor <;> linarith
  linarith [h1, h2, h3]

theorem sampleLoop_eq_accs (x0 y0 ux uy s L : ℚ) :
    ∀ (fuel : Nat) (acc : ℚ),
      (sampleLoop x0 y0 ux uy s L fuel acc).1 =
        (sampleAccs s L fuel acc).map fun a =>
          (⟨x0 + ux * a, y0 + uy * a⟩ : PtXY) := by
  intro fuel
  induction fuel with
  | zero => intro acc; rfl
  | succ n ih =>
    intro acc
    by_cases hg : acc + s ≤ L
    · simp only [sampleLoop, sampleAccs, if_pos hg, List.map_cons]
      rw [ih (acc + s)]
    · simp only [sampleLoop, sampleAccs, if_neg hg, List.map_nil]

theorem sampleAccs_chain (s L : ℚ) (hs1 : 1 ≤ s) :
    ∀ (fuel : Nat) (acc : ℚ),
      (sampleAccs s L fuel acc).Chain' fun a b => a + 1 ≤ b := by
  intro fuel
  induction fuel with
  | zero => intro acc; exact List.chain'_nil
  | succ n ih =>
    intro acc
    by_cases hg : acc + s ≤ L
    · simp only [sampleAccs, if_pos hg]
      rw [List.chain'_cons']
      refine ⟨?_, ih (acc + s)⟩
      intro b hb
      cases n with
      | zero => simp [sampleAccs] at hb
      | succ k =>
        simp only [sampleAccs] at hb
        by_cases hg2 : acc + s + s ≤ L
        · rw [if_pos hg2] at hb
          simp only [List.head?_cons, Option.mem_def, Option.some.injEq] at hb
          rw [← hb]
          linarith
        · rw [if_neg hg2] at hb
          simp at hb
    · simp only [sampleAccs, if_neg hg]
      exact List.chain'_nil

theorem totalArcLen_nonneg (points : List PtXY) : 0 ≤ totalArcLen points := by
  unfold totalArcLen
  apply List.sum_nonneg
  intro x hx
  rw [List.mem_map] at hx
  obtain ⟨sg, _, rfl⟩ := hx
  exact hypot_nonneg _ _

/-- The resampling fold grows the output by at most the arc length of the
processed segments and keeps the accumulator nonnegative. -/
theorem foldl_resampleStep_len (s : ℚ) (hs1 : 1 ≤ s) :
    ∀ (segs : List (PtXY × PtXY)) (st : List PtXY × ℚ), 0 ≤ st.2 →
      ((segs.foldl (resampleStep s) st).1.length : ℚ) ≤
        (st.1.length : ℚ) +
          (segs.map fun sg => hypot (sg.2.x - sg.1.x) (sg.2.y - sg.1.y)).sum ∧
      0 ≤ (segs.foldl (resampleStep s) st).2 := by
  have hs : 0 < s := lt_of_lt_of_le one_pos hs1
  intro segs
  induction segs with
  | nil =>
    intro st h
    constructor
    · simp
    · exact h
  | cons sg t ih =>
    intro st hacc
    rw [List.foldl_cons, List.map_cons, List.sum_cons]
    set L := hypot (sg.2.x - sg.1.x) (sg.2.y - sg.1.y) with hL
    have hL0 : 0 ≤ L := hypot_nonneg _ _
    by_cases hc : L ≤ 1 / 1000000
    · have hone : resampleStep s st sg = st := by
        simp only [resampleStep, ← hL, if_pos hc]
      rw [hone]
      obtain ⟨ha, hb⟩ := ih st hacc
      refine ⟨?_, hb⟩
      have harc : 0 ≤ (t.map fun sg =>
          hypot (sg.2.x - sg.1.x) (sg.2.y - sg.1.y)).sum := by
        apply List.sum_nonneg
        intro x hx
        rw [List.mem_map] at hx
        obtain ⟨sg2, _, rfl⟩ := hx
        exact hypot_nonneg _ _
      linarith
    · have hone : resampleStep s st sg =
          (st.1 ++ (sampleLoop sg.1.x sg.1.y ((sg.2.x - sg.1.x) / L)
            ((sg.2.y - sg.1.y) / L) s L ((⌊(L - st.2) / s⌋).toNat + 1) st.2).1,
           qmod ((sampleLoop sg.1.x sg.1.y ((sg.2.x - sg.1.x) / L)
            ((sg.2.y - sg.1.y) / L) s L ((⌊(L - st.2) / s⌋).toNat + 1) st.2).2
              + L) s) := by
        simp only [resampleStep, ← hL, if_neg hc]
      rw [hone]
      have hlen := sampleLoop_len_le sg.1.x sg.1.y ((sg.2.x - sg.1.x) / L)
        ((sg.2.y - sg.1.y) / L) s L hs1 ((⌊(L - st.2) / s⌋).toNat + 1) st.2
        hacc hL0
      set r := sampleLoop sg.1.x sg.1.y ((sg.2.x - sg.1.x) / L)
        ((sg.2.y - sg.1.y) / L) s L ((⌊(L - st.2) / s⌋).toNat + 1) st.2 with hr
      have hq : (0 : ℚ) ≤ ((st.1 ++ r.1, qmod (r.2 + L) s) :
          List PtXY × ℚ).2 := qmod_nonneg _ hs
      obtain ⟨ha, hb⟩ := ih (st.1 ++ r.1, qmod (r.2 + L) s) hq
      refine ⟨?_, hb⟩
      calc ((List.foldl (resampleStep s)
              (st.1 ++ r.1, qmod (r.2 + L) s) t).1.length : ℚ)
          ≤ ((st.1 ++ r.1).length : ℚ) +
            (t.map fun sg => hypot (sg.2.x - sg.1.x) (sg.2.y - sg.1.y)).sum :=
            ha
        _ ≤ (st.1.length : ℚ) + L +
            (t.map fun sg => hypot (sg.2.x - sg.1.x) (sg.2.y - sg.1.y)).sum := by
            rw [List.length_append]
            push_cast
            linarith
        _ = (st.1.length : ℚ) +
            (L + (t.map fun sg =>
              hypot (sg.2.x - sg.1.x) (sg.2.y - sg.1.y)).sum) := by ring

theorem resampleStep_eq (s : ℚ) (st : List PtXY × ℚ) (a b : PtXY) :
    resampleStep s st (a, b) =
      if hypot (b.x - a.x) (b.y - a.y) ≤ 1 / 1000000 then st
      else
        (st.1 ++ (sampleLoop a.x a.y
            ((b.x - a.x) / hypot (b.x - a.x) (b.y - a.y))
            ((b.y - a.y) / hypot (b.x - a.x) (b.y - a.y)) s
            (hypot (b.x - a.x) (b.y - a.y))
            ((⌊(hypot (b.x - a.x) (b.y - a.y) - st.2) / s⌋).toNat + 1) st.2).1,
         qmod ((sampleLoop a.x a.y
            ((b.x - a.x) / hypot (b.x - a.x) (b.y - a.y))
            ((b.y - a.y) / hypot (b.x - a.x) (b.y - a.y)) s
            (hypot (b.x - a.x) (b.y - a.y))
            ((⌊(hypot (b.x - a.x) (b.y - a.y) - st.2) / s⌋).toNat + 1) st.2).2 +
              hypot (b.x - a.x) (b.y - a.y)) s) := rfl

theorem resample_two_unfold (p0 p1 : PtXY) (s : ℚ) :
    resample_polyline [p0, p1] s =
      (let st := resampleStep s ([⟨p0.x, p0.y⟩], 0) (p0, p1)
       if (st.1.getLastD ⟨p0.x, p0.y⟩).x ≠ p1.x ∨
          (st.1.getLastD ⟨p0.x, p0.y⟩).y ≠ p1.y then
         st.1 ++ [⟨p1.x, p1.y⟩]
       else st.1) := rfl

theorem getLastD_cons_map_range (f : Nat → PtXY) (a d : PtXY) (m : Nat) :
    ((a :: (List.range m).map f).getLastD d) =
      if m = 0 then a else f (m - 1) := by
  cases m with
  | zero => rfl
  | succ k =>
    rw [if_neg (Nat.succ_ne_zero k), List.range_succ]
    simp only [List.map_append, List.map_cons, List.map_nil, ← List.cons_append,
      List.getLastD_concat]
    rfl

theorem resample_two_len (p0 p1 : PtXY) (s : ℚ) (hs : 0 < s) :
    (resample_polyline [p0, p1] s).length =
      if hypot (p1.x - p0.x) (p1.y - p0.y) ≤ 1 / 1000000 then
        (if p0.x = p1.x ∧ p0.y = p1.y then 1 else 2)
      else 1 + (⌈hypot (p1.x - p0.x) (p1.y - p0.y) / s⌉).toNat := by
  rw [resample_two_unfold, resampleStep_eq]
  by_cases hc : hypot (p1.x - p0.x) (p1.y - p0.y) ≤ 1 / 1000000
  · rw [if_pos hc, if_pos hc]
    show (if p0.x ≠ p1.x ∨ p0.y ≠ p1.y then
        ([(⟨p0.x, p0.y⟩ : PtXY)] ++ [⟨p1.x, p1.y⟩]) else [⟨p0.x, p0.y⟩]).length =
      if p0.x = p1.x ∧ p0.y = p1.y then 1 else 2
    by_cases hpp : p0.x = p1.x ∧ p0.y = p1.y
    · rw [if_pos hpp, if_neg (by push_neg; exact hpp)]
      rfl
    · have hcond : p0.x ≠ p1.x ∨ p0.y ≠ p1.y := by
        by_contra hne
        push_neg at hne
        exact hpp ⟨hne.1, hne.2⟩
      rw [if_neg hpp, if_pos hcond]
      rfl
  · rw [if_neg hc, if_neg hc]
    set L := hypot (p1.x - p0.x) (p1.y - p0.y) with hL
    have hL6 : 1 / 1000000 < L := lt_of_not_le hc
    have hL0 : 0 < L := lt_trans (by norm_num) hL6
    have hnz : ¬ (p1.x - p0.x = 0 ∧ p1.y - p0.y = 0) := by
      rintro ⟨h1, h2⟩
      rw [hL, h1, h2, hypot_zero] at hL0
      exact lt_irrefl 0 hL0
    have hLs : 0 < L / s := div_pos hL0 hs
    have hfl0 : 0 ≤ ⌊L / s⌋ := Int.floor_nonneg.mpr (le_of_lt hLs)
    have hclosed := sampleLoop_closed p0.x p0.y ((p1.x - p0.x) / L)
      ((p1.y - p0.y) / L) s L hs ((⌊(L - (0 : ℚ)) / s⌋).toNat + 1) 0
      resample_fuel_ok
    rw [sub_zero] at hclosed
    have hst2 : (([(⟨p0.x, p0.y⟩ : PtXY)], (0 : ℚ)) : List PtXY × ℚ).2 = 0 := rfl
    rw [hst2, sub_zero, hclosed]
    set f : Nat → PtXY := fun (j : Nat) =>
      (⟨p0.x + (p1.x - p0.x) / L * (0 + ((j : ℚ) + 1) * s),
        p0.y + (p1.y - p0.y) / L * (0 + ((j : ℚ) + 1) * s)⟩ : PtXY) with hf
    simp only [List.singleton_append]
    rw [getLastD_cons_map_range]
    cases hmk : (⌊L / s⌋).toNat with
    | zero =>
      rw [if_pos rfl]
      have hcond : ((⟨p0.x, p0.y⟩ : PtXY).x ≠ p1.x ∨
          (⟨p0.x, p0.y⟩ : PtXY).y ≠ p1.y) := by
        show p0.x ≠ p1.x ∨ p0.y ≠ p1.y
        by_contra hne
        push_neg at hne
        exact hnz ⟨by rw [hne.1]; ring, by rw [hne.2]; ring⟩
      rw [if_pos hcond]
      have hfl : ⌊L / s⌋ = 0 := by omega
      have hceil : ⌈L / s⌉ = 1 := by
        have h1 : 0 < ⌈L / s⌉ := Int.ceil_pos.mpr hLs
        have h2 : ⌈L / s⌉ ≤ ⌊L / s⌋ + 1 := Int.ceil_le_floor_add_one _
        omega
      rw [hceil]
      simp
    | succ k =>
      rw [if_neg (Nat.succ_ne_zero k)]
      have hflm : ⌊L / s⌋ = (k : ℤ) + 1 := by omega
      have hkk : ((k + 1 : ℕ) : ℚ) = (k : ℚ) + 1 := by push_cast; ring
      by_cases hML : ((k : ℚ) + 1) * s = L
      · have hxeq : (f (k + 1 - 1)).x = p1.x := by
          show p0.x + (p1.x - p0.x) / L * (0 + ((k : ℚ) + 1) * s) = p1.x
          rw [zero_add, hML, div_mul_cancel₀ _ (ne_of_gt hL0)]
          ring
        have hyeq : (f (k + 1 - 1)).y = p1.y := by
          show p0.y + (p1.y - p0.y) / L * (0 + ((k : ℚ) + 1) * s) = p1.y
          rw [zero_add, hML, div_mul_cancel₀ _ (ne_of_gt hL0)]
          ring
        rw [if_neg (by push_neg; exact ⟨hxeq, hyeq⟩)]
        have hdivv : L / s = (k : ℚ) + 1 := by
          rw [← hML]
          exact mul_div_cancel_right₀ _ (ne_of_gt hs)
        have hceil : ⌈L / s⌉ = (k : ℤ) + 1 := by
          rw [hdivv]
          rw [show ((k : ℚ) + 1) = (((k : ℤ) + 1 : ℤ) : ℚ) by push_cast; ring]
          exact Int.ceil_intCast _
        rw [hceil]
        simp only [List.length_cons, List.length_map, List.length_range]
        omega
      · have hcond : ((f (k + 1 - 1)).x ≠ p1.x ∨ (f (k + 1 - 1)).y ≠ p1.y) := by
          by_contra hne
          push_neg at hne
          obtain ⟨hx, hy⟩ := hne
          have hx' : p0.x + (p1.x - p0.x) / L * (0 + ((k : ℚ) + 1) * s) = p1.x := hx
          have hy' : p0.y + (p1.y - p0.y) / L * (0 + ((k : ℚ) + 1) * s) = p1.y := hy
          rw [zero_add] at hx' hy'
          have h3x : (p1.x - p0.x) / L * (((k : ℚ) + 1) * s) = p1.x - p0.x := by
            linarith
          have h3y : (p1.y - p0.y) / L * (((k : ℚ) + 1) * s) = p1.y - p0.y := by
            linarith
          field_simp at h3x h3y
          rcases h3x with h | hdx0
          · exact hML h
          · rcases h3y with h | hdy0
            · exact hML h
            · exact hnz ⟨hdx0, hdy0⟩
        rw [if_pos hcond]
        have hmlt : ((k : ℚ) + 1) < L / s := by
          have hle : ((k : ℚ) + 1) ≤ L / s := by
            have := Int.floor_le (L / s)
            rw [hflm] at this
            push_cast at this
            linarith
          rcases lt_or_eq_of_le hle with h | h
          · exact h
          · exfalso
            apply hML
            rw [h]
            exact div_mul_cancel₀ _ (ne_of_gt hs)
        have hceil : ⌈L / s⌉ = (k : ℤ) + 2 := by
          have h1 : (k : ℤ) + 1 < ⌈L / s⌉ := by
            rw [Int.lt_ceil]
            push_cast
            exact hmlt
          have h2 : ⌈L / s⌉ ≤ ⌊L / s⌋ + 1 := Int.ceil_le_floor_add_one _
          omega
        rw [hceil]
        simp only [List.length_append, List.length_cons, List.length_map,
          List.length_range, List.length_nil]
        omega

theorem filter_outline_count (bx byy : ℚ) (l : List PtXY) :
    (((⟨bx, byy, some "color_change", some "#000000"⟩ : PlanPoint) ::
      outlinePts l).filter fun p => p.type == some "stitch").length =
      l.length := by
  have hhead : (((⟨bx, byy, some "color_change", some "#000000"⟩ :
      PlanPoint)).type == some "stitch") = false := rfl
  rw [List.filter_cons, hhead]
  have hkeep : (outlinePts l).filter (fun p => p.type == some "stitch") =
      outlinePts l := by
    rw [List.filter_eq_self]
    intro a ha
    rw [outlinePts, List.mem_map] at ha
    obtain ⟨b, _, rfl⟩ := ha
    rfl
  simp only [Bool.false_eq_true, if_false]
  rw [hkeep, outlinePts, List.length_map]

theorem gfp_outline_count (sinf : ℚ → ℚ) (p0 p1 : PtXY) (cw ch : Int)
    (d wmm : ℚ) (ps : Int) (slm mm : ℚ) :
    (embroidery_generate_from_points sinf
      ⟨[p0, p1], cw, ch, "outline", d, wmm, ps, slm, mm⟩).info.stitch_count =
      (resample_polyline [p0, p1] (max 1 (gfp_stitch_len_px
        ⟨[p0, p1], cw, ch, "outline", d, wmm, ps, slm, mm⟩))).length := by
  unfold embroidery_generate_from_points
  rw [if_neg (by simp : ¬ ([p0, p1].length < 2))]
  dsimp only
  rw [show ∀ base w s (p : Int), gfp_dispatch sinf "outline" base w s p =
    outlinePts base from fun _ _ _ _ => rfl]
  rw [filter_outline_count]

/-! ## Claims -/

/-- C2: for every plan svg_to_stitches or embroidery_generate_from_points
returns, the stitch_count of its info summary equals the number of points
in its point sequence whose type is stitch. -/
theorem c2_stitch_count_invariant :
    (∀ (sinf : ℚ → ℚ) (req : GenerateFromPointsReq),
      (embroidery_generate_from_points sinf req).info.stitch_count =
        ((embroidery_generate_from_points sinf req).points.filter
          fun p => p.type == some "stitch").length) ∧
    (∀ (paths : List (Curve × SvgAttr)) (mm_per_px stitch_len_mm : ℚ)
        (strategy : String) (density width_mm : ℚ) (passes : Int),
      (svg_to_stitches paths mm_per_px stitch_len_mm strategy density width_mm
        passes).info.stitch_count =
        ((svg_to_stitches paths mm_per_px stitch_len_mm strategy density
          width_mm passes).points.filter
            fun p => p.type == some "stitch").length) := by
  constructor
  · intro sinf req
    unfold embroidery_generate_from_points
    by_cases h : req.points.length < 2
    · rw [if_pos h]
      try rfl
    · rw [if_neg h]
      try rfl
  · intros
    rfl

/-- C3: a freehand polyline with fewer than 2 points yields, under every
strategy and all parameter values, the valid empty plan with an empty point
list and stitch_count 0. -/
theorem c3_short_polyline_empty_plan :
    ∀ (sinf : ℚ → ℚ) (req : GenerateFromPointsReq),
      req.points.length < 2 →
      embroidery_generate_from_points sinf req =
        ⟨true, [], ⟨0, none, none, none, none, none⟩⟩ := by
  intro sinf req h
  unfold embroidery_generate_from_points
  rw [if_pos h]

/-- Witness for C3 at a one-point freehand request. -/
theorem c3_witness :
    ([(⟨0, 0⟩ : PtXY)].length < 2) ∧
    embroidery_generate_from_points (fun _ => 0)
        ⟨[⟨0, 0⟩], 100, 100, "satin", -3, 2, 0, 5/2, 13/50⟩ =
      ⟨true, [], ⟨0, none, none, none, none, none⟩⟩ :=
  ⟨by decide,
   c3_short_polyline_empty_plan (fun _ => 0)
     ⟨[⟨0, 0⟩], 100, 100, "satin", -3, 2, 0, 5/2, 13/50⟩ (by decide)⟩

/-- C4 (code bug): with pyembroidery present the decoder assigns no command
kind at all. stitch_flags_to_str falls off the end of its body and returns
None for every flag value, because the block testing the flag bits in
priority order Jump, Trim, ColorChange, Stop, End, Stitch is unreachable
code placed after the return of running_stitches_to_dst; consequently
every point parse_machine_file_to_plan builds carries type None. -/
theorem c4_decoder_assigns_no_kind :
    (∀ flags : Nat, stitch_flags_to_str true flags = none) ∧
    (∀ (records : List MachineRecord) (p : PlanPoint),
      p ∈ (parse_machine_file_to_plan records).points → p.type = none) := by
  constructor
  · intro flags; rfl
  · intro records p hp
    unfold parse_machine_file_to_plan at hp
    simp only [List.mem_map] at hp
    obtain ⟨s, _, rfl⟩ := hp
    rfl

/-- Witness for C4 on a one-record container whose record carries the JUMP
command: the decoded point has no kind. -/
theorem c4_witness :
    ((⟨0, 0, none, none⟩ : PlanPoint) ∈
      (parse_machine_file_to_plan [⟨0, 0, JUMP⟩]).points) ∧
    (⟨0, 0, none, none⟩ : PlanPoint).type = none :=
  ⟨by norm_num [parse_machine_file_to_plan, fromDeltas, stitch_flags_to_str],
   c4_decoder_assigns_no_kind.2 [⟨0, 0, JUMP⟩] ⟨0, 0, none, none⟩
     (by norm_num [parse_machine_file_to_plan, fromDeltas, stitch_flags_to_str])⟩

/-- C6 counterexample: a freehand request violating every stated parameter
bound (mm_per_px, stitch_len_mm, density nonpositive, passes below 1) is
not rejected: the endpoint synthesizes a plan with ok true and six
stitches. -/
theorem c6_counterexample :
    ¬ (0 < (-1 : ℚ)) ∧ ¬ (0 < (-1 : ℚ)) ∧ ¬ (0 < (-1 : ℚ)) ∧ ¬ ((1 : Int) ≤ 0) ∧
    (embroidery_generate_from_points (fun _ => 0)
      ⟨[⟨0, 0⟩, ⟨3, 4⟩], 10, 10, "outline", -1, -2, 0, -1, -1⟩).ok = true ∧
    (embroidery_generate_from_points (fun _ => 0)
      ⟨[⟨0, 0⟩, ⟨3, 4⟩], 10, 10, "outline", -1, -2, 0, -1, -1⟩).info.stitch_count
      = 6 := by
  have h7 : ((some "color_change" : Option String) == some "stitch") = false := by
    decide
  have h8 : ((some "stitch" : Option String) == some "stitch") = true := by decide
  refine ⟨by norm_num, by norm_num, by norm_num, by norm_num, ?_, ?_⟩ <;>
    norm_num [embroidery_generate_from_points, gfp_stitch_len_px, gfp_dispatch,
      outlinePts, resample_polyline, resampleStep, sampleLoop, hypot, ratSqrt,
      qmod, natSqrt, natSqrtAux, Rat.num_ofNat, Rat.den_ofNat, h7, h8,
      List.filter_cons, List.filter_nil]

/-- C6 amended: the SVG generate endpoint's query constraints validate
mm_per_px, stitch_len_mm and density to be positive (passes and width_mm
are not exposed there), while the freehand endpoint validates nothing and
synthesizes a plan for arbitrary parameter values. -/
theorem c6_validation_split :
    (∀ mm_per_px stitch_len_mm density : ℚ,
      embroidery_generate_params_valid mm_per_px stitch_len_mm density = true ↔
        (0 < mm_per_px ∧ 0 < stitch_len_mm ∧ 0 < density)) ∧
    (∀ (sinf : ℚ → ℚ) (density width_mm stitch_len_mm mm_per_px : ℚ)
        (passes cw ch : Int),
      (embroidery_generate_from_points sinf
        ⟨[⟨0, 0⟩, ⟨10, 0⟩], cw, ch, "outline", density, width_mm, passes,
          stitch_len_mm, mm_per_px⟩).ok = true) := by
  constructor
  · intro mm slm d
    simp [embroidery_generate_params_valid, Bool.and_eq_true, decide_eq_true_eq,
      and_assoc]
  · intro sinf d wmm slm mm ps cw ch
    rfl

/-- C5 counterexample: on a straight 10 px path, svg_to_stitches with the
unknown strategy name bogus produces the outline point sequence (3
stitches), not the fill point sequence (9 stitches), so the SVG entry
point does not fall back to the fill strategy. -/
theorem c5_counterexample :
    (svg_to_stitches [(⟨10, fun t => (10 * t, 0), fun _ => (10, 0)⟩,
        ⟨some "#111111", none⟩)] 1 5 "bogus" 1 2 1).points ≠
      (svg_to_stitches [(⟨10, fun t => (10 * t, 0), fun _ => (10, 0)⟩,
        ⟨some "#111111", none⟩)] 1 5 "fill" 1 2 1).points ∧
    (svg_to_stitches [(⟨10, fun t => (10 * t, 0), fun _ => (10, 0)⟩,
        ⟨some "#111111", none⟩)] 1 5 "bogus" 1 2 1).info.stitch_count = 3 ∧
    (svg_to_stitches [(⟨10, fun t => (10 * t, 0), fun _ => (10, 0)⟩,
        ⟨some "#111111", none⟩)] 1 5 "fill" 1 2 1).info.stitch_count = 9 := by
  have h1 : ("bogus" : String) ≠ "outline" := by decide
  have h2 : ("bogus" : String) ≠ "satin" := by decide
  have h3 : ("bogus" : String) ≠ "fill" := by decide
  have h2f : ("fill" : String) ≠ "outline" := by decide
  have h3f : ("fill" : String) ≠ "satin" := by decide
  have h4 : ("#111111" : String) ≠ "" := by decide
  have h5 : py_strip "#111111" = "#111111" := by decide
  have h6 : (2 : ℤ).toNat = 2 := rfl
  have h7 : ((some "color_change" : Option String) == some "stitch") = false := by
    decide
  have h8 : ((some "stitch" : Option String) == some "stitch") = true := by decide
  refine ⟨?_, ?_, ?_⟩ <;>
    norm_num [svg_to_stitches, svgStep, svg_dispatch, sample_path,
      sample_path_with_derivs, svgFillPts, _parse_color, ratSqrt, natSqrt,
      natSqrtAux, Rat.num_ofNat, Rat.den_ofNat, h1, h2, h3, h2f, h3f, h4, h5,
      h6, h7, h8, List.range_succ, List.filter_cons, List.filter_nil]

/-- C5 amended: an unrecognized strategy name silently falls back to the
fill point sequence on the freehand entry point, but to the outline
(plain path sampling) point sequence on the SVG entry point. -/
theorem c5_fallback_split :
    (∀ (sinf : ℚ → ℚ) (pts : List PtXY) (cw ch : Int) (strat : String)
        (d wmm slm mm : ℚ) (ps : Int),
      strat ≠ "outline" → strat ≠ "satin" → strat ≠ "zigzag" →
      strat ≠ "double_satin" → strat ≠ "meander" → strat ≠ "contour" →
      strat ≠ "ripple" →
      (embroidery_generate_from_points sinf
        ⟨pts, cw, ch, strat, d, wmm, ps, slm, mm⟩).points =
      (embroidery_generate_from_points sinf
        ⟨pts, cw, ch, "fill", d, wmm, ps, slm, mm⟩).points) ∧
    (∀ (paths : List (Curve × SvgAttr)) (mm slm : ℚ) (strat : String)
        (d wmm : ℚ) (ps : Int),
      strat ≠ "outline" → strat ≠ "satin" → strat ≠ "fill" →
      (svg_to_stitches paths mm slm strat d wmm ps).points =
      (svg_to_stitches paths mm slm "outline" d wmm ps).points) := by
  constructor
  · intro sinf pts cw ch strat d wmm slm mm ps h1 h2 h3 h4 h5 h6 h7
    have hd : gfp_dispatch sinf strat = gfp_dispatch sinf "fill" := by
      funext base wpx spx p
      unfold gfp_dispatch
      rw [if_neg h1, if_neg h2, if_neg h3, if_neg h4, if_neg h5, if_neg h6,
        if_neg h7]
      rfl
    unfold embroidery_generate_from_points
    dsimp only
    by_cases h : pts.length < 2
    · rw [if_pos h, if_pos h]
    · rw [if_neg h, if_neg h]
      dsimp only
      have hs : gfp_stitch_len_px ⟨pts, cw, ch, strat, d, wmm, ps, slm, mm⟩ =
          gfp_stitch_len_px ⟨pts, cw, ch, "fill", d, wmm, ps, slm, mm⟩ := rfl
      rw [hs, hd]
  · intro paths mm slm strat d wmm ps h1 h2 h3
    have hstep : ∀ (wpx spx : ℚ) (p : Int),
        svgStep strat wpx spx p = svgStep "outline" wpx spx p := by
      intro wpx spx p
      funext st ic
      simp only [svgStep, svg_dispatch, h1, h2, h3, if_false]
      rfl
    simp only [svg_to_stitches]
    rw [hstep]

/-- Witness for C5 at the unknown strategy name bogus on concrete inputs. -/
theorem c5_witness :
    (embroidery_generate_from_points (fun _ => 0)
        ⟨[⟨0, 0⟩, ⟨6, 8⟩], 1, 1, "bogus", 1, 2, 1, 5, 1⟩).points =
      (embroidery_generate_from_points (fun _ => 0)
        ⟨[⟨0, 0⟩, ⟨6, 8⟩], 1, 1, "fill", 1, 2, 1, 5, 1⟩).points ∧
    (svg_to_stitches [(⟨10, fun t => (10 * t, 0), fun _ => (10, 0)⟩,
        ⟨some "#111111", none⟩)] 1 5 "bogus" 1 2 1).points =
      (svg_to_stitches [(⟨10, fun t => (10 * t, 0), fun _ => (10, 0)⟩,
        ⟨some "#111111", none⟩)] 1 5 "outline" 1 2 1).points :=
  ⟨c5_fallback_split.1 (fun _ => 0) [⟨0, 0⟩, ⟨6, 8⟩] 1 1 "bogus" 1 2 5 1 1
      (by decide) (by decide) (by decide) (by decide) (by decide) (by decide)
      (by decide),
   c5_fallback_split.2 [(⟨10, fun t => (10 * t, 0), fun _ => (10, 0)⟩,
      ⟨some "#111111", none⟩)] 1 5 "bogus" 1 2 1
      (by decide) (by decide) (by decide)⟩

/-- C7: on groups whose point lists are nonempty, the optimizer keeps the
first group fixed and at every step appends the remaining group whose first
point has minimum Euclidean distance to the last point of the last placed
group, ties broken by the earliest original index: it equals the
specification optimizer optimize_spec built from exactly that rule; the
selection rule firstArgmin attains the minimum and beats every earlier
index strictly; and comparing real square roots of the squared distances
(as the source does via math.sqrt) orders them exactly as the squared
distances themselves, so the squared-distance selection is the Euclidean
one. -/
theorem c7_optimizer_greedy :
    ∀ groups : List StitchGroup, (∀ g ∈ groups, g.points ≠ []) →
      optimize_stitch_sequence groups = optimize_spec groups ∧
      (∀ ds : List ℚ, ds ≠ [] →
        firstArgmin ds < ds.length ∧
        ds.getD (firstArgmin ds) 0 = minOf ds ∧
        (∀ j < ds.length, minOf ds ≤ ds.getD j 0) ∧
        (∀ j < firstArgmin ds, minOf ds < ds.getD j 0)) ∧
      (∀ p q r : PtXY,
        (Real.sqrt ((dist2 p q : ℚ) : ℝ) ≤ Real.sqrt ((dist2 p r : ℚ) : ℝ) ↔
          dist2 p q ≤ dist2 p r)) := by
  intro groups h
  refine ⟨?_, firstArgmin_spec, ?_⟩
  · cases groups with
    | nil => rfl
    | cons g rest =>
      show g :: optimizeLoop rest.length g rest =
        g :: optimizeSpecLoop rest.length g rest
      rw [optimizeLoop_eq_spec rest.length g rest
        (List.forall_mem_cons.mp h).2]
  · intro p q r
    have hr : (0 : ℝ) ≤ ((dist2 p r : ℚ) : ℝ) := by
      exact_mod_cast dist2_nonneg p r
    rw [Real.sqrt_le_sqrt_iff hr, Rat.cast_le]

/-- Witness for C7 on four concrete groups with a distance tie between the
two groups starting at (1, 0). -/
theorem c7_witness :
    (∀ g ∈ [(⟨[⟨0, 0⟩], 0⟩ : StitchGroup), ⟨[⟨10, 0⟩], 1⟩, ⟨[⟨1, 0⟩], 2⟩,
        ⟨[⟨1, 0⟩], 3⟩], g.points ≠ []) ∧
    optimize_stitch_sequence
        [⟨[⟨0, 0⟩], 0⟩, ⟨[⟨10, 0⟩], 1⟩, ⟨[⟨1, 0⟩], 2⟩, ⟨[⟨1, 0⟩], 3⟩] =
      optimize_spec
        [⟨[⟨0, 0⟩], 0⟩, ⟨[⟨10, 0⟩], 1⟩, ⟨[⟨1, 0⟩], 2⟩, ⟨[⟨1, 0⟩], 3⟩] :=
  ⟨by simp,
   (c7_optimizer_greedy
     [⟨[⟨0, 0⟩], 0⟩, ⟨[⟨10, 0⟩], 1⟩, ⟨[⟨1, 0⟩], 2⟩, ⟨[⟨1, 0⟩], 3⟩]
     (by simp)).1⟩

/-- C1 counterexample: for the two-point plan with a color_change marker at
(5, 7) carrying #ff0000 followed by a stitch at (8, 11), decoding the
encoded container reproduces neither the absolute coordinates (the first
decoded point sits at the origin, 5 px away from the original, far beyond
the 1e-3 tolerance) nor the command kinds (every decoded point has kind
None, losing the color_change marker and the stitch kind alike). -/
theorem c1_counterexample :
    parse_machine_file_to_plan (running_stitches_to_dst
        [⟨5, 7, some "color_change", some "#ff0000"⟩,
         ⟨8, 11, some "stitch", none⟩]) =
      ⟨true,
       [⟨0, 0, none, none⟩, ⟨3, 4, none, none⟩, ⟨3, 4, none, none⟩],
       ⟨0, 0, 0, 0⟩⟩ ∧
    ¬ (|(0 : ℚ) - 5| ≤ 1 / 1000) ∧
    (some "color_change" : Option String) ≠ none ∧
    (some "stitch" : Option String) ≠ none := by
  refine ⟨?_, by norm_num, by decide, by decide⟩
  have h7 : ∀ s : String, ((none : Option String) == some s) = false :=
    fun _ => rfl
  norm_num [parse_machine_file_to_plan, running_stitches_to_dst, toDeltas,
    fromDeltas, stitch_flags_to_str, h7, List.filter_cons, List.filter_nil]

/-- C1 amended: decoding the encoded container of a nonempty plan yields
the plan's points translated so the first point sits at the origin, with
coordinates reproduced exactly in the delta-record model, followed by one
appended End record at the final position; no command kind survives: every
record is encoded with the Stitch command and the decoder assigns kind
None to all of them, so ColorChange markers lose both their kind and their
RGB payload. -/
theorem c1_roundtrip_translated (p0 : PlanPoint) (ps : List PlanPoint) :
    parse_machine_file_to_plan (running_stitches_to_dst (p0 :: ps)) =
      ⟨true,
       ((p0 :: ps).map fun p =>
         (⟨p.x - p0.x, p.y - p0.y, none, none⟩ : PlanPoint)) ++
         [⟨(ps.getLastD p0).x - p0.x, (ps.getLastD p0).y - p0.y, none, none⟩],
       ⟨0, 0, 0, 0⟩⟩ := by
  have hlast :
      ((p0 :: ps).map fun p => ((p.x - p0.x, p.y - p0.y) : ℚ × ℚ)).getLastD
          (0, 0) =
        ((ps.getLastD p0).x - p0.x, (ps.getLastD p0).y - p0.y) :=
    map_getLastD_cons (fun p : PlanPoint => ((p.x - p0.x, p.y - p0.y) : ℚ × ℚ))
      ps p0 (0, 0)
  simp only [parse_machine_file_to_plan, running_stitches_to_dst]
  rw [fromDeltas_toDeltas, hlast]
  have hfil : ∀ s : String,
      ((((p0 :: ps).map fun p =>
            ((p.x - p0.x, p.y - p0.y, STITCH) : ℚ × ℚ × Nat)) ++
          [((ps.getLastD p0).x - p0.x, (ps.getLastD p0).y - p0.y, END)]).map
        fun r =>
          (⟨r.1, r.2.1, stitch_flags_to_str true r.2.2, none⟩ : PlanPoint)).filter
          (fun p => p.type == some s) = [] := by
    intro s
    rw [List.filter_eq_nil_iff]
    intro a ha
    rw [List.mem_map] at ha
    obtain ⟨w, _, rfl⟩ := ha
    simp [stitch_flags_to_str]
  rw [ParseResp.mk.injEq]
  refine ⟨rfl, ?_, ?_⟩
  · rw [List.map_append, List.map_map]
    rfl
  · rw [ParseInfo.mk.injEq]
    exact ⟨by rw [hfil "stitch"]; rfl, by rw [hfil "jump"]; rfl,
      by rw [hfil "trim"]; rfl, by rw [hfil "color_change"]; rfl⟩

/-- C9: for every polyline with at least 2 points and positive spacing, the
resampled sequence ends exactly at the polyline's last input point — the
final point is force-appended whenever it does not already coincide with
the last emitted sample. -/
theorem c9_resample_ends_at_last_input :
    ∀ (points : List PtXY) (spacing : ℚ), 2 ≤ points.length → 0 < spacing →
      (resample_polyline points spacing).getLastD ⟨0, 0⟩ =
        points.getLastD ⟨0, 0⟩ := by
  intro points spacing hlen _hs
  cases points with
  | nil => simp at hlen
  | cons p0 t =>
    cases t with
    | nil => simp at hlen
    | cons p1 rest =>
      simp only [resample_polyline]
      have hne : (((p0 :: p1 :: rest).zip (p1 :: rest)).foldl
          (resampleStep spacing) ([⟨p0.x, p0.y⟩], 0)).1 ≠ [] :=
        foldl_resampleStep_ne_nil spacing _ _ (by simp)
      set out := (((p0 :: p1 :: rest).zip (p1 :: rest)).foldl
        (resampleStep spacing) ([⟨p0.x, p0.y⟩], 0)).1 with hout
      set lastPt := (p1 :: rest).getLastD p1 with hlast
      by_cases hcond : (out.getLastD ⟨p0.x, p0.y⟩).x ≠ lastPt.x ∨
          (out.getLastD ⟨p0.x, p0.y⟩).y ≠ lastPt.y
      · rw [if_pos hcond, List.getLastD_concat, List.getLastD_cons, hlast]
        exact getLastD_cons_irrel rest p1 ⟨0, 0⟩ p0 ▸ rfl
      · rw [if_neg hcond]
        push_neg at hcond
        obtain ⟨hx, hy⟩ := hcond
        have h1 : out.getLastD ⟨0, 0⟩ = out.getLastD ⟨p0.x, p0.y⟩ :=
          getLastD_irrel_of_ne_nil out hne _ _
        have h2 : out.getLastD ⟨p0.x, p0.y⟩ = lastPt := by
          cases hgl : out.getLastD ⟨p0.x, p0.y⟩ with
          | mk a b =>
            rw [hgl] at hx hy
            cases hlp : lastPt with
            | mk c d =>
              rw [hlp] at hx hy
              simp only at hx hy
              rw [PtXY.mk.injEq]
              exact ⟨hx, hy⟩
        rw [h1, h2, List.getLastD_cons, hlast]
        exact getLastD_cons_irrel rest p1 p0 ⟨0, 0⟩ ▸ rfl

/-- C8 counterexample: on the axis-aligned polyline (0,0)-(10,0)-(15,0)-(20,0)
with stitch_len_mm 20 and mm_per_px 1, raising the density from 4 (spacing
5 px) to 5 (spacing 4 px) lowers stitch_count from 5 to 4, because the
carry acc = (acc + seg_len) % spacing re-enters the next segment as a
position offset and suppresses that segment's samples. All quantities here
are dyadic, so the Python float trace is exact and matches this rational
evaluation. -/
theorem c8_counterexample :
    (4 : ℚ) < 5 ∧
    (embroidery_generate_from_points (fun _ => 0)
      ⟨[⟨0, 0⟩, ⟨10, 0⟩, ⟨15, 0⟩, ⟨20, 0⟩], 100, 100, "outline", 4, 2, 1, 20,
        1⟩).info.stitch_count = 5 ∧
    (embroidery_generate_from_points (fun _ => 0)
      ⟨[⟨0, 0⟩, ⟨10, 0⟩, ⟨15, 0⟩, ⟨20, 0⟩], 100, 100, "outline", 5, 2, 1, 20,
        1⟩).info.stitch_count = 4 ∧
    ¬ ((embroidery_generate_from_points (fun _ => 0)
      ⟨[⟨0, 0⟩, ⟨10, 0⟩, ⟨15, 0⟩, ⟨20, 0⟩], 100, 100, "outline", 4, 2, 1, 20,
        1⟩).info.stitch_count ≤
      (embroidery_generate_from_points (fun _ => 0)
      ⟨[⟨0, 0⟩, ⟨10, 0⟩, ⟨15, 0⟩, ⟨20, 0⟩], 100, 100, "outline", 5, 2, 1, 20,
        1⟩).info.stitch_count) := by
  have h7 : ((some "color_change" : Option String) == some "stitch") = false := by
    decide
  have h8 : ((some "stitch" : Option String) == some "stitch") = true := by
    decide
  refine ⟨by norm_num, ?_, ?_, ?_⟩ <;>
    norm_num [embroidery_generate_from_points, gfp_stitch_len_px, gfp_dispatch,
      outlinePts, resample_polyline, resampleStep, sampleLoop, hypot, ratSqrt,
      qmod, natSqrt, natSqrtAux, Rat.num_ofNat, Rat.den_ofNat, h7, h8,
      List.filter_cons, List.filter_nil]

/-- C8 amended: restricted to a single-segment freehand polyline (exactly two
points), the outline strategy's stitch_count is non-decreasing in the
density for positive densities and positive stitch length; on polylines
with three or more points the accumulator carry breaks monotonicity (see
the counterexample). -/
theorem c8_outline_density_monotone_two_point :
    ∀ (sinf : ℚ → ℚ) (p0 p1 : PtXY) (cw ch : Int) (wmm : ℚ) (ps : Int)
      (slm mm d1 d2 : ℚ), 0 < d1 → d1 ≤ d2 → 0 < slm →
      (embroidery_generate_from_points sinf
        ⟨[p0, p1], cw, ch, "outline", d1, wmm, ps, slm, mm⟩).info.stitch_count ≤
      (embroidery_generate_from_points sinf
        ⟨[p0, p1], cw, ch, "outline", d2, wmm, ps, slm, mm⟩).info.stitch_count := by
  intro sinf p0 p1 cw ch wmm ps slm mm d1 d2 hd1 h12 hslm
  rw [gfp_outline_count, gfp_outline_count]
  have hd2 : 0 < d2 := lt_of_lt_of_le hd1 h12
  have hB0 : 0 < (if 0 < mm then slm / mm else slm) := by
    by_cases hmm0 : 0 < mm
    · rw [if_pos hmm0]
      exact div_pos hslm hmm0
    · rw [if_neg hmm0]
      exact hslm
  have hslp1 : gfp_stitch_len_px ⟨[p0, p1], cw, ch, "outline", d1, wmm, ps, slm, mm⟩ =
      (if 0 < mm then slm / mm else slm) / max (1/4) d1 := by
    unfold gfp_stitch_len_px
    dsimp only
    rw [if_pos hd1]
  have hslp2 : gfp_stitch_len_px ⟨[p0, p1], cw, ch, "outline", d2, wmm, ps, slm, mm⟩ =
      (if 0 < mm then slm / mm else slm) / max (1/4) d2 := by
    unfold gfp_stitch_len_px
    dsimp only
    rw [if_pos hd2]
  have hmax12 : max (1/4 : ℚ) d1 ≤ max (1/4 : ℚ) d2 := max_le_max le_rfl h12
  have hmax1 : (0 : ℚ) < max (1/4 : ℚ) d1 :=
    lt_of_lt_of_le (by norm_num) (le_max_left _ _)
  have hmax2 : (0 : ℚ) < max (1/4 : ℚ) d2 := lt_of_lt_of_le hmax1 hmax12
  have hs21 : (if 0 < mm then slm / mm else slm) / max (1/4) d2 ≤
      (if 0 < mm then slm / mm else slm) / max (1/4) d1 := by
    gcongr
  have hs12 : max 1 ((if 0 < mm then slm / mm else slm) / max (1/4) d2) ≤
      max 1 ((if 0 < mm then slm / mm else slm) / max (1/4) d1) :=
    max_le_max le_rfl hs21
  have hs1pos : (0 : ℚ) < max 1 ((if 0 < mm then slm / mm else slm) / max (1/4) d1) :=
    lt_of_lt_of_le one_pos (le_max_left _ _)
  have hs2pos : (0 : ℚ) < max 1 ((if 0 < mm then slm / mm else slm) / max (1/4) d2) :=
    lt_of_lt_of_le one_pos (le_max_left _ _)
  rw [hslp1, hslp2, resample_two_len p0 p1 _ hs1pos, resample_two_len p0 p1 _ hs2pos]
  by_cases hc : hypot (p1.x - p0.x) (p1.y - p0.y) ≤ 1 / 1000000
  · rw [if_pos hc, if_pos hc]
  · rw [if_neg hc, if_neg hc]
    have hL0 : 0 < hypot (p1.x - p0.x) (p1.y - p0.y) :=
      lt_trans (by norm_num) (lt_of_not_le hc)
    have hdivle : hypot (p1.x - p0.x) (p1.y - p0.y) /
        max 1 ((if 0 < mm then slm / mm else slm) / max (1/4) d1) ≤
        hypot (p1.x - p0.x) (p1.y - p0.y) /
        max 1 ((if 0 < mm then slm / mm else slm) / max (1/4) d2) := by
      gcongr
    have hceil := Int.ceil_le_ceil hdivle
    have htn := Int.toNat_le_toNat hceil
    omega

/-- Witness for C8 on a concrete 3-4-5 segment with densities 1 and 2. -/
theorem c8_witness :
    (0 : ℚ) < 1 ∧ (1 : ℚ) ≤ 2 ∧ (0 : ℚ) < 5 ∧
    (embroidery_generate_from_points (fun _ => 0)
      ⟨[⟨0, 0⟩, ⟨3, 4⟩], 10, 10, "outline", 1, 2, 1, 5, 1⟩).info.stitch_count ≤
    (embroidery_generate_from_points (fun _ => 0)
      ⟨[⟨0, 0⟩, ⟨3, 4⟩], 10, 10, "outline", 2, 2, 1, 5, 1⟩).info.stitch_count :=
  ⟨by norm_num, by norm_num, by norm_num,
   c8_outline_density_monotone_two_point (fun _ => 0) ⟨0, 0⟩ ⟨3, 4⟩ 10 10 2 1
     5 1 1 2 (by norm_num) (by norm_num) (by norm_num)⟩

/-- Witness for C9 on a 3-4-5 segment with spacing 2: the resampled sequence
ends at the input's endpoint (3, 4). -/
theorem c9_witness :
    2 ≤ ([(⟨0, 0⟩ : PtXY), ⟨3, 4⟩] : List PtXY).length ∧ (0 : ℚ) < 2 ∧
    (resample_polyline [⟨0, 0⟩, ⟨3, 4⟩] 2).getLastD ⟨0, 0⟩ =
      ([(⟨0, 0⟩ : PtXY), ⟨3, 4⟩] : List PtXY).getLastD ⟨0, 0⟩ :=
  ⟨by simp, by norm_num,
   c9_resample_ends_at_last_input [⟨0, 0⟩, ⟨3, 4⟩] 2 (by simp) (by norm_num)⟩

/-- C10: the spacing handed to the polyline resampler is clamped below at 1
(max 1 stitch_len_px); the accumulator loop's emitted samples sit at arc
positions at least 1 apart (the loop emits exactly the sampleAccs
positions, which step by the spacing); and the number of resampled samples
is bounded by the polyline's total arc length in pixels plus 2. -/
theorem c10_spacing_clamp_and_sample_bound :
    (∀ req : GenerateFromPointsReq, 1 ≤ max 1 (gfp_stitch_len_px req)) ∧
    (∀ (x0 y0 ux uy s L : ℚ) (fuel : Nat) (acc : ℚ), 1 ≤ s →
      (sampleLoop x0 y0 ux uy s L fuel acc).1 =
        (sampleAccs s L fuel acc).map
          (fun a => (⟨x0 + ux * a, y0 + uy * a⟩ : PtXY)) ∧
      (sampleAccs s L fuel acc).Chain' fun a b => a + 1 ≤ b) ∧
    (∀ (points : List PtXY) (s : ℚ), 1 ≤ s →
      ((resample_polyline points s).length : ℚ) ≤ totalArcLen points + 2) := by
  have hite : ∀ (c : Prop) (inst : Decidable c) (l : List PtXY) (q : PtXY),
      (((if c then l ++ [q] else l).length : ℕ) : ℚ) ≤ (l.length : ℚ) + 1 := by
    intro c inst l q
    split
    · rw [List.length_append]
      push_cast
      simp
    · linarith
  refine ⟨?_, ?_, ?_⟩
  · intro req
    exact le_max_left _ _
  · intro x0 y0 ux uy s L fuel acc hs1
    exact ⟨sampleLoop_eq_accs x0 y0 ux uy s L fuel acc,
      sampleAccs_chain s L hs1 fuel acc⟩
  · intro points s hs1
    cases points with
    | nil =>
      have := totalArcLen_nonneg ([] : List PtXY)
      simp only [resample_polyline, List.length_nil, Nat.cast_zero]
      linarith
    | cons p0 t =>
      cases t with
      | nil =>
        have := totalArcLen_nonneg [p0]
        simp only [resample_polyline, List.length_singleton, Nat.cast_one]
        linarith
      | cons p1 rest =>
        obtain ⟨hlen, _⟩ := foldl_resampleStep_len s hs1
          ((p0 :: p1 :: rest).zip (p1 :: rest)) ([⟨p0.x, p0.y⟩], 0)
          (le_refl 0)
        have harc : totalArcLen (p0 :: p1 :: rest) =
            (((p0 :: p1 :: rest).zip (p1 :: rest)).map fun sg =>
              hypot (sg.2.x - sg.1.x) (sg.2.y - sg.1.y)).sum := rfl
        simp only [resample_polyline]
        refine le_trans (hite _ _ _ _) ?_
        have h1 : ((([(⟨p0.x, p0.y⟩ : PtXY)] : List PtXY).length : ℕ) : ℚ)
            = 1 := by simp
        rw [h1] at hlen
        rw [harc]
        linarith

/-- Witness for C10 on a 3-4-5 segment with spacing 2: 4 samples against an
arc length of 5 plus 2. -/
theorem c10_witness :
    (1 : ℚ) ≤ 2 ∧
    ((resample_polyline [⟨0, 0⟩, ⟨3, 4⟩] 2).length : ℚ) ≤
      totalArcLen [⟨0, 0⟩, ⟨3, 4⟩] + 2 :=
  ⟨by norm_num,
   c10_spacing_clamp_and_sample_bound.2.2 [⟨0, 0⟩, ⟨3, 4⟩] 2 (by norm_num)⟩

end Closset
